import Mathlib

/-!
Shallow embedding of the voxel-world core of this repository (chunked world
data model, streaming scheduler, network chunk codec, authoritative server
action handlers, and client reconciliation), with theorems checking the
specification's claims against the embedded code.

Conventions of the embedding:
* JavaScript numbers that only ever hold integers are modelled as `Int`
  (or `Nat` where the source guarantees non-negativity); general numeric
  values (positions, velocities, noise values) are modelled as `ℚ`.
* 32-bit integer operations (`| 0`, `Math.imul`, `^`, `>>>`) are modelled on
  `Nat` in unsigned-32-bit representation, with explicit `% 2^32`.
* `Uint16Array` block buffers are modelled as `List Nat` with entries below
  `2 ^ 16`; writes store the value modulo `2 ^ 16` like the typed array does.
* JavaScript `Map`/`Set` (insertion-ordered) are modelled as association
  lists / lists, with map keys `(cx, cz) : Int × Int` standing for the
  `"cx:cz"` strings produced by `chunkKey` (that string format is injective
  on coordinate pairs).
* `async` completions are modelled as explicit events of a step relation.
-/

namespace MC

/-! ### Shared constants (src/config.ts) -/

def CHUNK_SIZE : Int := 16
def WORLD_HEIGHT : Int := 96
def WORLD_SEA_LEVEL : Int := 28
def VIEW_DISTANCE_CHUNKS : Nat := 10
def HOTBAR_SIZE : Nat := 9
def MAX_STACK : Nat := 64
def PLAYER_HEIGHT : ℚ := 1.8
def PLAYER_HALF_WIDTH : ℚ := 0.3
def PLAYER_EYE_HEIGHT : ℚ := 1.62

/-! ### JavaScript arithmetic helpers

`jsRem a b` is the JavaScript `%` operator (truncated remainder, sign of the
dividend) for a positive divisor `b`, the only way the source uses it.
`floorDiv a b` is `Math.floor(a / b)` on integer inputs. -/

def jsRem (a b : Int) : Int := if a < 0 then -((-a) % b) else a % b

/-- The source's `mod(a, b)`: JS `%` then a conditional `+ b` to make the
result non-negative (floored modulo). -/
def jsMod (a b : Int) : Int :=
  let result := jsRem a b
  if result < 0 then result + b else result

/-- `Math.floor` on exact rationals, as a computable function (`Rat.floor`). -/
def jsFloor (q : ℚ) : Int := q.floor

theorem jsFloor_eq (q : ℚ) : jsFloor q = ⌊q⌋ := by
  rw [jsFloor, Rat.floor_def', ← Rat.floor_def]

/-- The source's `floorDiv(a, b) = Math.floor(a / b)`. -/
def floorDiv (a b : Int) : Int := jsFloor ((a : ℚ) / (b : ℚ))

/-! ### World-to-chunk coordinate mapping (src/world/worldStore.ts) -/

structure ChunkLocal where
  cx : Int
  cz : Int
  lx : Int
  lz : Int
  deriving DecidableEq, Repr

/-- The source's `worldToChunkLocal(x, z)`: floor the world coordinates, then
floor-divide by the chunk size for the chunk column and floor-mod for the
local offset. -/
def worldToChunkLocal (x z : ℚ) : ChunkLocal :=
  let fx : Int := jsFloor x
  let fz : Int := jsFloor z
  { cx := floorDiv fx CHUNK_SIZE
    cz := floorDiv fz CHUNK_SIZE
    lx := jsMod fx CHUNK_SIZE
    lz := jsMod fz CHUNK_SIZE }

/-- The source's `worldToChunk(x, z)` (chunk column only). -/
def worldToChunk (x z : ℚ) : Int × Int :=
  (floorDiv (jsFloor x) CHUNK_SIZE, floorDiv (jsFloor z) CHUNK_SIZE)

theorem floorDiv_eq_fdiv (a : Int) : floorDiv a CHUNK_SIZE = a.fdiv 16 := by
  rw [Int.fdiv_eq_ediv _ (by norm_num)]
  unfold floorDiv CHUNK_SIZE
  rw [jsFloor_eq]
  have h16 : ((16 : Int) : ℚ) = ((16 : ℕ) : ℚ) := by norm_num
  rw [h16, Rat.floor_intCast_div_natCast]
  norm_num

theorem jsMod_eq_emod (a : Int) : jsMod a CHUNK_SIZE = a % 16 := by
  unfold jsMod jsRem CHUNK_SIZE
  by_cases h : a < 0 <;> simp only [h, if_true, if_false, reduceIte] <;> omega

/-- Claim C2: for every integer world coordinate pair, `worldToChunkLocal`
returns the floor-division chunk column, local offsets in `[0, 16)` (never
negative), and the round-trip `cx * 16 + lx = x`, `cz * 16 + lz = z` holds —
including for negative inputs such as `x = -1 ↦ (cx = -1, lx = 15)`. -/
theorem worldToChunkLocal_spec (x z : Int) :
    (worldToChunkLocal (x : ℚ) (z : ℚ)).cx = x.fdiv 16 ∧
    (worldToChunkLocal (x : ℚ) (z : ℚ)).cz = z.fdiv 16 ∧
    0 ≤ (worldToChunkLocal (x : ℚ) (z : ℚ)).lx ∧
    (worldToChunkLocal (x : ℚ) (z : ℚ)).lx < 16 ∧
    0 ≤ (worldToChunkLocal (x : ℚ) (z : ℚ)).lz ∧
    (worldToChunkLocal (x : ℚ) (z : ℚ)).lz < 16 ∧
    (worldToChunkLocal (x : ℚ) (z : ℚ)).cx * 16 + (worldToChunkLocal (x : ℚ) (z : ℚ)).lx
      = x ∧
    (worldToChunkLocal (x : ℚ) (z : ℚ)).cz * 16 + (worldToChunkLocal (x : ℚ) (z : ℚ)).lz
      = z := by
  have hx : jsFloor ((x : ℚ)) = x := by rw [jsFloor_eq]; exact Int.floor_intCast x
  have hz : jsFloor ((z : ℚ)) = z := by rw [jsFloor_eq]; exact Int.floor_intCast z
  have hcx : (worldToChunkLocal (x : ℚ) (z : ℚ)).cx = x.fdiv 16 := by
    show floorDiv (jsFloor ((x : ℚ))) CHUNK_SIZE = x.fdiv 16
    rw [hx, floorDiv_eq_fdiv]
  have hcz : (worldToChunkLocal (x : ℚ) (z : ℚ)).cz = z.fdiv 16 := by
    show floorDiv (jsFloor ((z : ℚ))) CHUNK_SIZE = z.fdiv 16
    rw [hz, floorDiv_eq_fdiv]
  have hlx : (worldToChunkLocal (x : ℚ) (z : ℚ)).lx = x % 16 := by
    show jsMod (jsFloor ((x : ℚ))) CHUNK_SIZE = x % 16
    rw [hx, jsMod_eq_emod]
  have hlz : (worldToChunkLocal (x : ℚ) (z : ℚ)).lz = z % 16 := by
    show jsMod (jsFloor ((z : ℚ))) CHUNK_SIZE = z % 16
    rw [hz, jsMod_eq_emod]
  have hfx : x.fdiv 16 = x / 16 := Int.fdiv_eq_ediv _ (by norm_num)
  have hfz : z.fdiv 16 = z / 16 := Int.fdiv_eq_ediv _ (by norm_num)
  refine ⟨hcx, hcz, ?_, ?_, ?_, ?_, ?_, ?_⟩ <;>
    simp only [hcx, hcz, hlx, hlz, hfx, hfz] <;> omega

/-! ### ChunkData (src/world/chunk.ts)

The `Uint16Array` of `16 * 96 * 16` block codes, plus the chunk column
coordinates. `get` out of bounds returns air (`0`); `set` out of bounds is a
no-op. -/

def BLOCKS_PER_CHUNK : Nat := 24576

structure ChunkData where
  cx : Int
  cz : Int
  blocks : List Nat
  deriving DecidableEq, Repr

/-- Linear index `x + z * W + y * W * W` (only used with in-bounds, hence
non-negative, coordinates). -/
def ChunkData.index (localX y localZ : Int) : Nat :=
  (localX + localZ * CHUNK_SIZE + y * CHUNK_SIZE * CHUNK_SIZE).toNat

def ChunkData.inBounds (localX y localZ : Int) : Bool :=
  0 ≤ localX && localX < CHUNK_SIZE && 0 ≤ localZ && localZ < CHUNK_SIZE &&
    0 ≤ y && y < WORLD_HEIGHT

def ChunkData.get (c : ChunkData) (localX y localZ : Int) : Nat :=
  if ChunkData.inBounds localX y localZ then
    c.blocks.getD (ChunkData.index localX y localZ) 0
  else 0

def ChunkData.set (c : ChunkData) (localX y localZ : Int) (blockId : Nat) : ChunkData :=
  if ChunkData.inBounds localX y localZ then
    { c with blocks := c.blocks.set (ChunkData.index localX y localZ) (blockId % 65536) }
  else c

/-- Fresh zero-filled chunk (`new ChunkData(cx, cz)` without an existing
buffer: `Uint16Array` is zero-initialised). -/
def ChunkData.fresh (cx cz : Int) : ChunkData :=
  { cx := cx, cz := cz, blocks := List.replicate BLOCKS_PER_CHUNK 0 }

/-- Claim C9: for every chunk and every coordinate outside
`0 ≤ x < 16, 0 ≤ y < 96, 0 ≤ z < 16`, `get` returns the air block code and
`set` leaves the chunk (in particular its block array) unchanged. -/
theorem chunkData_out_of_bounds (c : ChunkData) (x y z : Int) (b : Nat)
    (h : ¬ (0 ≤ x ∧ x < 16 ∧ 0 ≤ y ∧ y < 96 ∧ 0 ≤ z ∧ z < 16)) :
    ChunkData.get c x y z = 0 ∧ ChunkData.set c x y z b = c := by
  have hb : ChunkData.inBounds x y z = false := by
    unfold ChunkData.inBounds CHUNK_SIZE WORLD_HEIGHT
    simp only [Bool.and_eq_false_iff, decide_eq_false_iff_not]
    by_contra hcon
    push_neg at hcon
    rcases hcon with ⟨⟨⟨⟨⟨h1, h2⟩, h3⟩, h4⟩, h5⟩, h6⟩
    exact h ⟨by simpa using h1, by simpa using h2, by simpa using h5,
      by simpa using h6, by simpa using h3, by simpa using h4⟩
  constructor
  · unfold ChunkData.get
    simp [hb]
  · unfold ChunkData.set
    simp [hb]

/-- Witness for C9 at the concrete out-of-bounds coordinate `x = -1`. -/
theorem chunkData_out_of_bounds_witness :
    ChunkData.get (ChunkData.fresh 0 0) (-1) 3 5 = 0 ∧
      ChunkData.set (ChunkData.fresh 0 0) (-1) 3 5 7 = ChunkData.fresh 0 0 :=
  chunkData_out_of_bounds (ChunkData.fresh 0 0) (-1) 3 5 7 (by decide)

/-! ### Block table (src/blocks.ts, src/types.ts)

`BlockId` enum values as the numeric codes the typed arrays store. -/

def blockAir : Nat := 0
def blockGrass : Nat := 1
def blockDirt : Nat := 2
def blockStone : Nat := 3
def blockWood : Nat := 4
def blockLeaves : Nat := 5
def blockSand : Nat := 6
def blockWater : Nat := 7

/-! ### Value noise (src/noise.ts)

32-bit integer mixing is carried out on `Nat` in unsigned-32-bit
representation: `Math.imul` is multiplication modulo `2 ^ 32`, `^` is
`Nat.xor`, `>>> k` is division by `2 ^ k`. These agree with the JS int32
semantics because xor, truncating shifts of unsigned representatives and
products are congruent modulo `2 ^ 32`. -/

def U32 : Nat := 4294967296

/-- Unsigned-32-bit representative of an integer (`n | 0` reinterpreted). -/
def toUint32 (n : Int) : Nat := (n % (U32 : Int)).toNat

/-- The source's `hashInt`: two rounds of xor-shift multiply, returning an
unsigned 32-bit value. -/
def hashInt (n : Nat) : Nat :=
  let x0 := n % U32
  let x1 := Nat.xor x0 (x0 >>> 16) * 0x85ebca6b % U32
  let x2 := Nat.xor x1 (x1 >>> 13) * 0xc2b2ae35 % U32
  Nat.xor x2 (x2 >>> 16)

/-- The source's `hash2(seed, x, z)`: hash of the seed xored with the
`Math.imul`-scaled lattice coordinates, normalised into `[0, 1]`. -/
def hash2 (seed : Nat) (x z : Int) : ℚ :=
  let n := hashInt (Nat.xor (Nat.xor (seed % U32) (toUint32 x * 0x1f123bb5 % U32))
    (toUint32 z * 0x5f356495 % U32))
  (n : ℚ) / 4294967295

def hashRange (seed : Nat) (x z : Int) : ℚ := hash2 seed x z

def lerpQ (a b t : ℚ) : ℚ := a + (b - a) * t

def smoothstepQ (t : ℚ) : ℚ := t * t * (3 - 2 * t)

/-- The source's `ValueNoise2D.sample`: smoothstep-interpolated lattice value
noise. -/
def noiseSample (seed : Nat) (x z : ℚ) : ℚ :=
  let x0 : Int := jsFloor x
  let z0 : Int := jsFloor z
  let x1 := x0 + 1
  let z1 := z0 + 1
  let tx := smoothstepQ (x - (x0 : ℚ))
  let tz := smoothstepQ (z - (z0 : ℚ))
  let v00 := hash2 seed x0 z0
  let v10 := hash2 seed x1 z0
  let v01 := hash2 seed x0 z1
  let v11 := hash2 seed x1 z1
  lerpQ (lerpQ v00 v10 tx) (lerpQ v01 v11 tx) tz

/-- Octave loop of `ValueNoise2D.fbm`, accumulating `(sum, norm)`. -/
def fbmGo (seed : Nat) (x z : ℚ) : Nat → ℚ → ℚ → ℚ → ℚ → ℚ × ℚ
  | 0, _, _, sum, norm => (sum, norm)
  | i + 1, frequency, amplitude, sum, norm =>
    fbmGo seed x z i (frequency * 2) (amplitude * 0.5)
      (sum + noiseSample seed (x * frequency) (z * frequency) * amplitude)
      (norm + amplitude)

def fbm (seed : Nat) (x z : ℚ) (octaves : Nat) : ℚ :=
  let sn := fbmGo seed x z octaves 1 1 0 0
  sn.1 / sn.2

/-! ### World generator (src/world/generator.ts) -/

structure WorldGenerator where
  seed : Nat
  heightSeed : Nat
  detailSeed : Nat
  caveSeed : Nat
  treeSeed : Nat
  deriving DecidableEq, Repr

/-- The `WorldGenerator` constructor: derives the per-field noise seeds by
xor-mixing the (32-bit truncated) world seed with per-field constants. -/
def mkWorldGenerator (seed : Int) : WorldGenerator :=
  let s := toUint32 seed
  { seed := s
    heightSeed := Nat.xor s 0x89ab23
    detailSeed := Nat.xor s 0x3281cd
    caveSeed := Nat.xor s 0x7722ff
    treeSeed := Nat.xor s 0x44aa1f }

/-- The source's `getHeight`: broad fbm field plus finer detail field,
floored and clamped into `[6, WORLD_HEIGHT - 8]`. -/
def WorldGenerator.getHeight (g : WorldGenerator) (wx wz : Int) : Int :=
  let base := fbm g.heightSeed ((wx : ℚ) * 0.015) ((wz : ℚ) * 0.015) 5
  let detail := fbm g.detailSeed ((wx : ℚ) * 0.05) ((wz : ℚ) * 0.05) 3
  let h := 22 + base * 30 + detail * 6
  max 6 (min (WORLD_HEIGHT - 8) (jsFloor h))

/-- Block chosen for one cell of the column pass of `generateChunk` (stone
with cave carving below the soil cap, sand/grass/dirt cap, water below sea
level, air above). -/
def columnBlock (g : WorldGenerator) (wx wz height y : Int) : Nat :=
  if y ≤ height then
    if y ≤ height - 4 then
      if 8 < y ∧ y < height - 3 then
        if fbm g.caveSeed ((wx : ℚ) * 0.08) (((wz + y : Int) : ℚ) * 0.08) 3 > 0.72 then
          blockAir
        else blockStone
      else blockStone
    else if y = height then
      if height ≤ WORLD_SEA_LEVEL + 1 then blockSand else blockGrass
    else
      if height ≤ WORLD_SEA_LEVEL + 1 then blockSand else blockDirt
  else if y ≤ WORLD_SEA_LEVEL then blockWater
  else blockAir

def intRangeTo (n : Nat) : List Int := (List.range n).map (fun i => (i : Int))

/-- One column of the column pass (fixed `lx, lz`, loop over `y`). -/
def fillColumn (g : WorldGenerator) (chunk : ChunkData) (cx cz lx lz : Int) : ChunkData :=
  let wx := cx * CHUNK_SIZE + lx
  let wz := cz * CHUNK_SIZE + lz
  let height := g.getHeight wx wz
  (intRangeTo 96).foldl (fun ch y => ch.set lx y lz (columnBlock g wx wz height y)) chunk

/-- The full column pass of `generateChunk`. -/
def fillColumns (g : WorldGenerator) (cx cz : Int) (c : ChunkData) : ChunkData :=
  (intRangeTo 16).foldl (fun ch lx =>
    (intRangeTo 16).foldl (fun ch2 lz => fillColumn g ch2 cx cz lx lz) ch) c

/-- The source's `findSurface` scanning from `y = n` down: first cell that is
neither air nor water, else `0`. -/
def findSurfaceAux (c : ChunkData) (lx lz : Int) : Nat → Int
  | 0 => 0
  | y + 1 =>
    let b := c.get lx ((y : Int) + 1) lz
    if b ≠ blockAir ∧ b ≠ blockWater then (y : Int) + 1 else findSurfaceAux c lx lz y

def findSurface (c : ChunkData) (lx lz : Int) : Int :=
  findSurfaceAux c lx lz 95

/-- Body of the tree-placement pass for one interior column: hash-gated
placement, hash-derived trunk height, Manhattan-radius canopy that never
overwrites non-air blocks. -/
def placeTreeAt (g : WorldGenerator) (chunk : ChunkData) (lx lz : Int) : ChunkData :=
  let wx := chunk.cx * CHUNK_SIZE + lx
  let wz := chunk.cz * CHUNK_SIZE + lz
  let chance := hashRange g.treeSeed wx wz
  if chance < 0.992 then chunk
  else
    let groundY := findSurface chunk lx lz
    if groundY < WORLD_SEA_LEVEL + 1 ∨ groundY > WORLD_HEIGHT - 12 then chunk
    else if chunk.get lx groundY lz ≠ blockGrass then chunk
    else
      let trunkHeight : Int := 4 + jsFloor (hashRange (Nat.xor g.treeSeed 0xaa1) wx wz * 3)
      let chunk1 := (List.range trunkHeight.toNat).foldl
        (fun ch i => ch.set lx (groundY + (i : Int) + 1) lz blockWood) chunk
      let crownBase := groundY + trunkHeight - 1
      let offs : List Int := [-2, -1, 0, 1, 2]
      let oys : List Int := [0, 1, 2]
      offs.foldl (fun chA ox =>
        offs.foldl (fun chB oz =>
          oys.foldl (fun chC oy =>
            let distance := |ox| + |oz| + oy
            if distance > 4 then chC
            else
              let tx := lx + ox
              let tz := lz + oz
              let ty := crownBase + oy
              if tx < 0 ∨ tz < 0 ∨ tx ≥ CHUNK_SIZE ∨ tz ≥ CHUNK_SIZE ∨ ty ≥ WORLD_HEIGHT then
                chC
              else if chC.get tx ty tz = blockAir then chC.set tx ty tz blockLeaves
              else chC) chB) chA) chunk1

/-- Interior columns `2 ≤ lx, lz ≤ CHUNK_SIZE - 3` visited by the tree pass. -/
def treeCols : List Int := (List.range 12).map (fun i => (i : Int) + 2)

def generateTrees (g : WorldGenerator) (chunk : ChunkData) : ChunkData :=
  treeCols.foldl (fun ch lx => treeCols.foldl (fun ch2 lz => placeTreeAt g ch2 lx lz) ch) chunk

/-- The source's `WorldGenerator.generateChunk(cx, cz)`: zero-filled chunk,
column pass, then tree pass. Its only inputs are the generator's seeds and
the chunk coordinates. -/
def WorldGenerator.generateChunk (g : WorldGenerator) (cx cz : Int) : ChunkData :=
  generateTrees g (fillColumns g cx cz (ChunkData.fresh cx cz))

/-- Claim C1: chunk generation is a pure, deterministic function of
`(seed, cx, cz)`: two generators constructed from the same seed produce
byte-identical block arrays for every chunk coordinate — there are no other
inputs. -/
theorem generateChunk_deterministic (s1 s2 cx cz : Int) (h : s1 = s2) :
    (WorldGenerator.generateChunk (mkWorldGenerator s1) cx cz).blocks =
      (WorldGenerator.generateChunk (mkWorldGenerator s2) cx cz).blocks := by
  subst h; rfl

/-- Witness for C1 at seed `42` and chunk `(0, 0)`. -/
theorem generateChunk_deterministic_witness :
    (42 : Int) = 42 ∧
      (WorldGenerator.generateChunk (mkWorldGenerator 42) 0 0).blocks =
        (WorldGenerator.generateChunk (mkWorldGenerator 42) 0 0).blocks :=
  ⟨rfl, generateChunk_deterministic 42 42 0 0 rfl⟩

/-! ### Chunk payload codec (server/world.ts `encodeChunkBase64`,
src/net/networkWorld.ts `decodeChunkBase64`)

The server serialises a chunk's `Uint16Array` buffer as base64 of its
little-endian bytes (`Buffer.toString("base64")`); the client decodes with
`atob` + `charCodeAt` and reinterprets the bytes as a `Uint16Array`.
Base64 text is modelled as the list of its character codes. -/

def b64AlphabetCodes : List Nat :=
  (List.range 26).map (fun i => i + 65) ++ (List.range 26).map (fun i => i + 97) ++
    (List.range 10).map (fun i => i + 48) ++ [43, 47]

/-- Character code of the base64 digit for a 6-bit value. -/
def encB64 (n : Nat) : Nat := b64AlphabetCodes.getD n 0

/-- 6-bit value of a base64 character code (as `atob` reads it). -/
def decB64 (c : Nat) : Nat := b64AlphabetCodes.indexOf c

/-- Standard base64 of a byte list, processing three bytes into four digits,
with `=` (code 61) padding for a trailing one- or two-byte group. -/
def b64EncodeBytes : List Nat → List Nat
  | [] => []
  | [b1] => [encB64 (b1 / 4), encB64 (b1 % 4 * 16), 61, 61]
  | [b1, b2] => [encB64 (b1 / 4), encB64 (b1 % 4 * 16 + b2 / 16), encB64 (b2 % 16 * 4), 61]
  | b1 :: b2 :: b3 :: rest =>
    encB64 (b1 / 4) :: encB64 (b1 % 4 * 16 + b2 / 16) :: encB64 (b2 % 16 * 4 + b3 / 64) ::
      encB64 (b3 % 64) :: b64EncodeBytes rest

/-- `atob`: four base64 digits back into three bytes, with `=` padding
cutting the final group short. -/
def b64DecodeCodes : List Nat → List Nat
  | c1 :: c2 :: c3 :: c4 :: rest =>
    let s1 := decB64 c1
    let s2 := decB64 c2
    if c3 = 61 then [s1 * 4 + s2 / 16]
    else
      let s3 := decB64 c3
      if c4 = 61 then [s1 * 4 + s2 / 16, s2 % 16 * 16 + s3 / 4]
      else
        let s4 := decB64 c4
        (s1 * 4 + s2 / 16) :: (s2 % 16 * 16 + s3 / 4) :: (s3 % 4 * 64 + s4) ::
          b64DecodeCodes rest
  | _ => []

/-- Little-endian bytes of a `Uint16Array` buffer. -/
def u16sToBytesLE (l : List Nat) : List Nat :=
  l.flatMap (fun n => [n % 256, n / 256 % 256])

/-- Reading a byte buffer back as a little-endian `Uint16Array`. -/
def bytesToU16sLE : List Nat → List Nat
  | b0 :: b1 :: rest => (b0 + b1 * 256) :: bytesToU16sLE rest
  | _ => []

/-- The source's `AuthoritativeWorld.encodeChunkBase64` applied to a block
buffer: base64 text (as character codes) of the buffer's raw bytes. -/
def encodeChunkBase64 (blocks : List Nat) : List Nat :=
  b64EncodeBytes (u16sToBytesLE blocks)

/-- The source's `NetworkWorldStore.decodeChunkBase64`: `atob`, then collect
char codes as bytes, then view as `Uint16Array`. -/
def decodeChunkBase64 (codes : List Nat) : List Nat :=
  bytesToU16sLE (b64DecodeCodes codes)

theorem decB64_encB64 : ∀ n < 64, decB64 (encB64 n) = n := by decide

theorem encB64_ne_pad : ∀ n < 64, encB64 n ≠ 61 := by decide

theorem b64_roundtrip :
    ∀ l : List Nat, (∀ b ∈ l, b < 256) → b64DecodeCodes (b64EncodeBytes l) = l := by
  intro l
  induction l using b64EncodeBytes.induct with
  | case1 =>
    intro _
    rfl
  | case2 b1 =>
    intro h
    have hb1 : b1 < 256 := h b1 (by simp)
    simp only [b64EncodeBytes, b64DecodeCodes, if_true, reduceIte]
    rw [decB64_encB64 _ (by omega), decB64_encB64 _ (by omega)]
    simp only [List.cons.injEq, and_true]
    omega
  | case3 b1 b2 =>
    intro h
    have hb1 : b1 < 256 := h b1 (by simp)
    have hb2 : b2 < 256 := h b2 (by simp)
    simp only [b64EncodeBytes, b64DecodeCodes]
    rw [if_neg (encB64_ne_pad _ (by omega))]
    simp only [if_true, reduceIte]
    rw [decB64_encB64 _ (by omega), decB64_encB64 _ (by omega), decB64_encB64 _ (by omega)]
    simp only [List.cons.injEq, and_true]
    omega
  | case4 b1 b2 b3 rest ih =>
    intro h
    have hb1 : b1 < 256 := h b1 (by simp)
    have hb2 : b2 < 256 := h b2 (by simp)
    have hb3 : b3 < 256 := h b3 (by simp)
    simp only [b64EncodeBytes, b64DecodeCodes]
    rw [if_neg (encB64_ne_pad _ (by omega)), if_neg (encB64_ne_pad _ (by omega))]
    rw [decB64_encB64 _ (by omega), decB64_encB64 _ (by omega), decB64_encB64 _ (by omega),
      decB64_encB64 _ (by omega)]
    have hrest := ih (fun b hb => h b (by simp [hb]))
    rw [hrest]
    simp only [List.cons.injEq, and_true]
    refine ⟨by omega, by omega, by omega⟩

theorem u16sToBytesLE_lt (l : List Nat) : ∀ b ∈ u16sToBytesLE l, b < 256 := by
  intro b hb
  simp only [u16sToBytesLE, List.mem_flatMap] at hb
  obtain ⟨n, _, hn⟩ := hb
  simp only [List.mem_cons, List.not_mem_nil, or_false] at hn
  rcases hn with h | h <;> omega

theorem bytesToU16sLE_roundtrip :
    ∀ l : List Nat, (∀ n ∈ l, n < 65536) → bytesToU16sLE (u16sToBytesLE l) = l := by
  intro l
  induction l with
  | nil => intro _; rfl
  | cons n rest ih =>
    intro h
    have hn : n < 65536 := h n (by simp)
    have hrest := ih (fun m hm => h m (by simp [hm]))
    have hstep : u16sToBytesLE (n :: rest) =
        n % 256 :: n / 256 % 256 :: u16sToBytesLE rest := by
      simp [u16sToBytesLE]
    rw [hstep]
    simp only [bytesToU16sLE]
    rw [hrest]
    have : n % 256 + n / 256 % 256 * 256 = n := by omega
    rw [this]

/-- Claim C3: for every 16×96×16-entry block buffer of 16-bit codes, the
base64 encode→decode round trip reconstructs exactly the original array. -/
theorem chunkBase64_roundtrip (blocks : List Nat)
    (_hlen : blocks.length = BLOCKS_PER_CHUNK) (hval : ∀ b ∈ blocks, b < 65536) :
    decodeChunkBase64 (encodeChunkBase64 blocks) = blocks := by
  unfold decodeChunkBase64 encodeChunkBase64
  rw [b64_roundtrip _ (u16sToBytesLE_lt blocks)]
  exact bytesToU16sLE_roundtrip blocks hval

/-- Witness for C3 on a fully populated chunk buffer of water blocks. -/
theorem chunkBase64_roundtrip_witness :
    (List.replicate BLOCKS_PER_CHUNK 7).length = BLOCKS_PER_CHUNK ∧
      decodeChunkBase64 (encodeChunkBase64 (List.replicate BLOCKS_PER_CHUNK 7)) =
        List.replicate BLOCKS_PER_CHUNK 7 :=
  ⟨List.length_replicate _ _,
    chunkBase64_roundtrip _ (List.length_replicate _ _)
      (fun b hb => by rw [List.eq_of_mem_replicate hb]; norm_num)⟩

/-! ### Client world store and streaming scheduler (src/world/worldStore.ts)

`Map<string, ChunkState>` and `Set<string>` keyed by `chunkKey(cx, cz) =
"cx:cz"` are modelled as insertion-ordered association lists / lists keyed by
the coordinate pair (the string format is injective on pairs). The async
completion of `loadChunk` is a separate event (`finishLoad` / `failLoad`) of
the reachability relation below. -/

abbrev Key : Type := Int × Int

def chunkKey (cx cz : Int) : Key := (cx, cz)

structure ChunkEntry where
  chunk : ChunkData
  dirty : Bool
  meshDirty : Bool
  lastTouched : Nat
  deriving DecidableEq, Repr

def assocFind {α : Type} : List (Key × α) → Key → Option α
  | [], _ => none
  | (k, v) :: rest, key => if k = key then some v else assocFind rest key

/-- `Map.set`: replace in place when the key is present, else append
(JS maps preserve insertion order). -/
def assocSet {α : Type} (m : List (Key × α)) (k : Key) (v : α) : List (Key × α) :=
  if (assocFind m k).isSome then m.map (fun p => if p.1 = k then (k, v) else p)
  else m ++ [(k, v)]

def setAdd (s : List Key) (k : Key) : List Key := if k ∈ s then s else s ++ [k]

def setDelete (s : List Key) (k : Key) : List Key := s.filter (fun x => x ≠ k)

structure WorldStore where
  chunks : List (Key × ChunkEntry)
  loadQueue : List Key
  queuedKeys : List Key
  loadingKeys : List Key

def maxConcurrentLoads : Nat := 2

def WorldStore.initial : WorldStore := ⟨[], [], [], []⟩

def WorldStore.hasChunk (s : WorldStore) (cx cz : Int) : Bool :=
  (assocFind s.chunks (chunkKey cx cz)).isSome

/-- Symmetric integer range `-r, …, r` (the `for (let d = -radius; d <= radius; ...)`
loops). -/
def intRangeSym (r : Nat) : List Int :=
  (List.range (2 * r + 1)).map (fun (i : Nat) => (i : Int) - (r : Int))

/-- Candidate targets of `queueChunksAround`: all coordinates in the square
radius around the center that are not already resident, queued, or in
flight, each with its squared distance to the center. -/
def WorldStore.candidateTargets (s : WorldStore) (center : Key) (r : Nat) :
    List (Key × Int) :=
  ((intRangeSym r).product (intRangeSym r)).filterMap (fun d =>
    let key := chunkKey (center.1 + d.1) (center.2 + d.2)
    if (assocFind s.chunks key).isSome ∨ key ∈ s.queuedKeys ∨ key ∈ s.loadingKeys then none
    else some (key, d.1 * d.1 + d.2 * d.2))

/-- Stable insertion of one target into a dist2-sorted list (a later target
goes after earlier targets with dist2 less than or equal to its own, matching
the stable `targets.sort((a, b) => a.dist2 - b.dist2)`). -/
def insertByDist (x : Key × Int) : List (Key × Int) → List (Key × Int)
  | [] => [x]
  | y :: ys => if y.2 ≤ x.2 then y :: insertByDist x ys else x :: y :: ys

def sortByDist (l : List (Key × Int)) : List (Key × Int) :=
  l.foldl (fun acc x => insertByDist x acc) []

/-- The source's `WorldStore.queueChunksAround(x, z, radius)`: collect
missing candidates, sort by squared distance, push each onto the load queue
and into the queued-key set. -/
def WorldStore.queueChunksAround (s : WorldStore) (x z : ℚ) (r : Nat) : WorldStore :=
  let center := worldToChunk x z
  let targets := sortByDist (s.candidateTargets center r)
  { s with
    loadQueue := s.loadQueue ++ targets.map (fun t => t.1)
    queuedKeys := targets.foldl (fun q t => setAdd q t.1) s.queuedKeys }

/-- Keys enqueued by one `queueChunksAround` call, in push order. -/
def WorldStore.newlyQueuedKeys (s : WorldStore) (x z : ℚ) (r : Nat) : List Key :=
  (sortByDist (s.candidateTargets (worldToChunk x z) r)).map (fun t => t.1)

/-- Loop body of the source's `processLoadQueue` `while` loop: dequeue while
fewer than `maxConcurrentLoads` loads are in flight; skip entries that became
resident or in-flight since enqueueing; otherwise claim an in-flight slot
(the async `loadChunk` completion is a separate event). -/
def WorldStore.processStep (s : WorldStore) : Nat → WorldStore
  | 0 => s
  | fuel + 1 =>
    if s.loadingKeys.length < maxConcurrentLoads then
      match s.loadQueue with
      | [] => s
      | next :: rest =>
        if (assocFind s.chunks next).isSome ∨ next ∈ s.loadingKeys then
          WorldStore.processStep
            { s with loadQueue := rest, queuedKeys := setDelete s.queuedKeys next } fuel
        else
          WorldStore.processStep
            ⟨s.chunks, rest, setDelete s.queuedKeys next, s.loadingKeys ++ [next]⟩ fuel
    else s

def WorldStore.processLoadQueue (s : WorldStore) : WorldStore :=
  s.processStep s.loadQueue.length

def WorldStore.markChunkMeshDirty (s : WorldStore) (cx cz : Int) : WorldStore :=
  match assocFind s.chunks (chunkKey cx cz) with
  | some st =>
    { s with chunks := assocSet s.chunks (chunkKey cx cz) ({ st with meshDirty := true }) }
  | none => s

/-- Completion of an in-flight `loadChunk(cx, cz)`: install the loaded or
generated chunk (non-dirty, mesh-dirty), mark the four cardinal neighbours
mesh-dirty, and release the in-flight slot (`finally`). -/
def WorldStore.finishLoad (s : WorldStore) (cx cz : Int) (chunk : ChunkData) (now : Nat) :
    WorldStore :=
  let key := chunkKey cx cz
  let s1 : WorldStore :=
    { s with chunks := assocSet s.chunks key ⟨chunk, false, true, now⟩ }
  let s2 := (((s1.markChunkMeshDirty (cx - 1) cz).markChunkMeshDirty (cx + 1) cz
    ).markChunkMeshDirty cx (cz - 1)).markChunkMeshDirty cx (cz + 1)
  { s2 with loadingKeys := setDelete s2.loadingKeys key }

/-- Failed in-flight load: only the `finally` runs, releasing the slot. -/
def WorldStore.failLoad (s : WorldStore) (cx cz : Int) : WorldStore :=
  { s with loadingKeys := setDelete s.loadingKeys (chunkKey cx cz) }

/-- Chebyshev farness test of `unloadFarChunks`
(`Math.abs(cx - center.cx) > radius || Math.abs(cz - center.cz) > radius`). -/
def farFrom (center : Key) (r : Nat) (k : Key) : Bool :=
  r < (k.1 - center.1).natAbs ∨ r < (k.2 - center.2).natAbs

/-- The source's `unloadFarChunks(x, z, radius)`: save every far dirty chunk
(the returned list records the `saveChunk` calls in order), then delete every
far chunk from the map. -/
def WorldStore.unloadFarChunks (s : WorldStore) (x z : ℚ) (r : Nat) :
    WorldStore × List Key :=
  let center := worldToChunk x z
  let saves := (s.chunks.filter (fun p => farFrom center r p.1 && p.2.dirty)).map
    (fun p => p.1)
  ({ s with chunks := s.chunks.filter (fun p => !farFrom center r p.1) }, saves)

/-- The source's `flushDirtyChunks`: save every dirty chunk and clear its
dirty flag. -/
def WorldStore.flushDirtyChunks (s : WorldStore) : WorldStore × List Key :=
  ({ s with chunks := s.chunks.map (fun p => (p.1, { p.2 with dirty := false })) },
    (s.chunks.filter (fun p => p.2.dirty)).map (fun p => p.1))

/-- The source's `saveChunkIfDirty(cx, cz)`. -/
def WorldStore.saveChunkIfDirty (s : WorldStore) (cx cz : Int) : WorldStore × List Key :=
  match assocFind s.chunks (chunkKey cx cz) with
  | none => (s, [])
  | some st =>
    if st.dirty then
      ({ s with chunks := assocSet s.chunks (chunkKey cx cz) ({ st with dirty := false }) },
        [chunkKey cx cz])
    else (s, [])

/-- The source's `WorldStore.getBlock` (also bumps `lastTouched`, hence the
returned store). -/
def WorldStore.getBlock (s : WorldStore) (now : Nat) (x : ℚ) (y : Int) (z : ℚ) :
    Nat × WorldStore :=
  if y < 0 ∨ WORLD_HEIGHT ≤ y then (blockAir, s)
  else
    let r := worldToChunkLocal x z
    match assocFind s.chunks (chunkKey r.cx r.cz) with
    | none => (blockAir, s)
    | some st =>
      let st1 : ChunkEntry := { st with lastTouched := now }
      (st.chunk.get r.lx y r.lz,
        { s with chunks := assocSet s.chunks (chunkKey r.cx r.cz) st1 })

/-- The border-neighbour marking at the end of `setBlock`: a write at a
chunk-local border coordinate marks the adjacent neighbour chunk mesh-dirty. -/
def WorldStore.markBorderNeighbors (s : WorldStore) (r : ChunkLocal) : WorldStore :=
  let s2 := if r.lx = 0 then s.markChunkMeshDirty (r.cx - 1) r.cz
    else if r.lx = CHUNK_SIZE - 1 then s.markChunkMeshDirty (r.cx + 1) r.cz
    else s
  if r.lz = 0 then s2.markChunkMeshDirty r.cx (r.cz - 1)
  else if r.lz = CHUNK_SIZE - 1 then s2.markChunkMeshDirty r.cx (r.cz + 1)
  else s2

/-- The source's `WorldStore.setBlock`: no-op (returning `false`) for
out-of-range `y`, missing chunk, or an unchanged block value; otherwise write
the cell, set `dirty`/`meshDirty`, and mark the adjacent neighbour chunk
mesh-dirty when the cell is on a chunk border. -/
def WorldStore.setBlock (s : WorldStore) (now : Nat) (x : ℚ) (y : Int) (z : ℚ)
    (block : Nat) : Bool × WorldStore :=
  if y < 0 ∨ WORLD_HEIGHT ≤ y then (false, s)
  else
    let r := worldToChunkLocal x z
    let key := chunkKey r.cx r.cz
    match assocFind s.chunks key with
    | none => (false, s)
    | some st =>
      let oldBlock := st.chunk.get r.lx y r.lz
      if oldBlock = block then (false, s)
      else
        let st1 : ChunkEntry :=
          { chunk := st.chunk.set r.lx y r.lz block, dirty := true, meshDirty := true,
            lastTouched := now }
        let s1 : WorldStore := { s with chunks := assocSet s.chunks key st1 }
        (true, s1.markBorderNeighbors r)

/-- States of the client world store reachable from a fresh store through its
public operations and async load completions. -/
inductive Reachable : WorldStore → Prop
  | init : Reachable WorldStore.initial
  | queueAround (s : WorldStore) (x z : ℚ) (r : Nat) :
      Reachable s → Reachable (s.queueChunksAround x z r)
  | process (s : WorldStore) : Reachable s → Reachable s.processLoadQueue
  | finishOk (s : WorldStore) (cx cz : Int) (chunk : ChunkData) (now : Nat) :
      Reachable s → chunkKey cx cz ∈ s.loadingKeys →
      Reachable (s.finishLoad cx cz chunk now)
  | finishFail (s : WorldStore) (cx cz : Int) :
      Reachable s → chunkKey cx cz ∈ s.loadingKeys → Reachable (s.failLoad cx cz)
  | getB (s : WorldStore) (now : Nat) (x : ℚ) (y : Int) (z : ℚ) :
      Reachable s → Reachable (s.getBlock now x y z).2
  | setB (s : WorldStore) (now : Nat) (x : ℚ) (y : Int) (z : ℚ) (b : Nat) :
      Reachable s → Reachable (s.setBlock now x y z b).2
  | unload (s : WorldStore) (x z : ℚ) (r : Nat) :
      Reachable s → Reachable (s.unloadFarChunks x z r).1
  | flush (s : WorldStore) : Reachable s → Reachable s.flushDirtyChunks.1
  | saveIfDirty (s : WorldStore) (cx cz : Int) :
      Reachable s → Reachable (s.saveChunkIfDirty cx cz).1

/-- Scheduler bookkeeping invariant: at most `maxConcurrentLoads` loads in
flight, a duplicate-free queue, and `queuedKeys` tracking exactly the queue's
membership. -/
def SchedInv (s : WorldStore) : Prop :=
  s.loadingKeys.length ≤ maxConcurrentLoads ∧
    s.loadQueue.Nodup ∧ ∀ k : Key, k ∈ s.queuedKeys ↔ k ∈ s.loadQueue

theorem mem_setAdd (s : List Key) (a k : Key) : k ∈ setAdd s a ↔ k ∈ s ∨ k = a := by
  unfold setAdd
  by_cases h : a ∈ s
  · simp only [if_pos h]
    constructor
    · exact Or.inl
    · rintro (hk | rfl)
      · exact hk
      · exact h
  · simp [if_neg h]

theorem mem_setDelete (s : List Key) (a k : Key) : k ∈ setDelete s a ↔ k ∈ s ∧ k ≠ a := by
  unfold setDelete
  simp [List.mem_filter]

theorem mem_foldl_setAdd (ts : List (Key × Int)) (q : List Key) (k : Key) :
    k ∈ ts.foldl (fun q t => setAdd q t.1) q ↔ k ∈ q ∨ k ∈ ts.map (fun t => t.1) := by
  induction ts generalizing q with
  | nil => simp
  | cons t ts ih =>
    simp only [List.foldl_cons, List.map_cons, List.mem_cons]
    rw [ih, mem_setAdd]
    tauto

theorem perm_insertByDist (x : Key × Int) (l : List (Key × Int)) :
    (insertByDist x l).Perm (x :: l) := by
  induction l with
  | nil => exact List.Perm.refl _
  | cons y ys ih =>
    unfold insertByDist
    by_cases h : y.2 ≤ x.2
    · simp only [if_pos h]
      exact (ih.cons y).trans (List.Perm.swap x y ys)
    · simp only [if_neg h]
      exact List.Perm.refl _

theorem perm_foldl_insertByDist (l init : List (Key × Int)) :
    (l.foldl (fun acc x => insertByDist x acc) init).Perm (init ++ l) := by
  induction l generalizing init with
  | nil => simp
  | cons x xs ih =>
    simp only [List.foldl_cons]
    refine (ih (insertByDist x init)).trans ?_
    refine (List.Perm.append_right xs (perm_insertByDist x init)).trans ?_
    exact List.perm_middle.symm

theorem perm_sortByDist (l : List (Key × Int)) : (sortByDist l).Perm l := by
  unfold sortByDist
  simpa using perm_foldl_insertByDist l []

theorem mem_sortByDist (l : List (Key × Int)) (t : Key × Int) :
    t ∈ sortByDist l ↔ t ∈ l :=
  (perm_sortByDist l).mem_iff

/-- Every candidate target of `queueChunksAround` is fresh: not resident, not
in the queued-key set, not in flight. -/
theorem candidateTargets_fresh (s : WorldStore) (center : Key) (r : Nat)
    (t : Key × Int) (ht : t ∈ s.candidateTargets center r) :
    ¬((assocFind s.chunks t.1).isSome ∨ t.1 ∈ s.queuedKeys ∨ t.1 ∈ s.loadingKeys) := by
  unfold WorldStore.candidateTargets at ht
  rw [List.mem_filterMap] at ht
  obtain ⟨d, _, hd⟩ := ht
  by_cases hc : (assocFind s.chunks (chunkKey (center.1 + d.1) (center.2 + d.2))).isSome ∨
      chunkKey (center.1 + d.1) (center.2 + d.2) ∈ s.queuedKeys ∨
      chunkKey (center.1 + d.1) (center.2 + d.2) ∈ s.loadingKeys
  · rw [if_pos hc] at hd
    exact absurd hd (by simp)
  · rw [if_neg hc] at hd
    have : t.1 = chunkKey (center.1 + d.1) (center.2 + d.2) := by
      cases hd
      rfl
    rw [this]
    exact hc

theorem nodup_map_fst_filterMap {α : Type} (F : α → Option (Key × Int)) (keyOf : α → Key)
    (hF : ∀ a t, F a = some t → t.1 = keyOf a)
    (hinj : ∀ a b, keyOf a = keyOf b → a = b) :
    ∀ l : List α, l.Nodup → ((l.filterMap F).map (fun t => t.1)).Nodup := by
  intro l
  induction l with
  | nil => intro _; simp
  | cons a l ih =>
    intro hnd
    rw [List.nodup_cons] at hnd
    rw [List.filterMap_cons]
    cases hFa : F a with
    | none => exact ih hnd.2
    | some t =>
      simp only [List.map_cons, List.nodup_cons]
      refine ⟨?_, ih hnd.2⟩
      intro hmem
      simp only [List.mem_map, List.mem_filterMap] at hmem
      obtain ⟨t2, ⟨b, hbl, hFb⟩, ht2⟩ := hmem
      have hb : t2.1 = keyOf b := hF b t2 hFb
      have ha : t.1 = keyOf a := hF a t hFa
      have : a = b := hinj a b (by rw [← ha, ← hb, ht2])
      exact hnd.1 (this ▸ hbl)

theorem nodup_intRangeSym (r : Nat) : (intRangeSym r).Nodup := by
  unfold intRangeSym
  refine List.Nodup.map (f := fun i : Nat => (i : Int) - (r : Int)) ?_ (List.nodup_range _)
  intro a b h
  dsimp only at h
  omega

/-- Keys of one `queueChunksAround` call are pairwise distinct (the nested
`dx`/`dz` loops visit distinct offsets and the key map is injective). -/
theorem nodup_candidate_keys (s : WorldStore) (center : Key) (r : Nat) :
    ((s.candidateTargets center r).map (fun t => t.1)).Nodup := by
  unfold WorldStore.candidateTargets
  refine nodup_map_fst_filterMap _ (fun d => chunkKey (center.1 + d.1) (center.2 + d.2))
    ?_ ?_ _ ?_
  · intro d t h
    by_cases hc : (assocFind s.chunks (chunkKey (center.1 + d.1) (center.2 + d.2))).isSome ∨
        chunkKey (center.1 + d.1) (center.2 + d.2) ∈ s.queuedKeys ∨
        chunkKey (center.1 + d.1) (center.2 + d.2) ∈ s.loadingKeys
    · rw [if_pos hc] at h
      exact absurd h (by simp)
    · rw [if_neg hc] at h
      cases h
      rfl
  · intro a b h
    unfold chunkKey at h
    have h1 : center.1 + a.1 = center.1 + b.1 := congrArg Prod.fst h
    have h2 : center.2 + a.2 = center.2 + b.2 := congrArg Prod.snd h
    exact Prod.ext (by omega) (by omega)
  · exact List.Nodup.product (nodup_intRangeSym r) (nodup_intRangeSym r)

theorem nodup_newlyQueuedKeys (s : WorldStore) (x z : ℚ) (r : Nat) :
    (s.newlyQueuedKeys x z r).Nodup := by
  unfold WorldStore.newlyQueuedKeys
  have hperm := (perm_sortByDist (s.candidateTargets (worldToChunk x z) r)).map
    (fun t => t.1)
  exact hperm.symm.nodup (nodup_candidate_keys s (worldToChunk x z) r)

theorem mem_newlyQueuedKeys_fresh (s : WorldStore) (x z : ℚ) (r : Nat) (k : Key)
    (hk : k ∈ s.newlyQueuedKeys x z r) :
    ¬((assocFind s.chunks k).isSome ∨ k ∈ s.queuedKeys ∨ k ∈ s.loadingKeys) := by
  unfold WorldStore.newlyQueuedKeys at hk
  rw [List.mem_map] at hk
  obtain ⟨t, ht, hkt⟩ := hk
  rw [mem_sortByDist] at ht
  exact hkt ▸ candidateTargets_fresh s (worldToChunk x z) r t ht

/-- Operations that only rewrite chunk contents leave the three scheduler
fields untouched. -/
def SameSched (s t : WorldStore) : Prop :=
  t.loadQueue = s.loadQueue ∧ t.queuedKeys = s.queuedKeys ∧ t.loadingKeys = s.loadingKeys

theorem sameSched_refl (s : WorldStore) : SameSched s s := ⟨rfl, rfl, rfl⟩

theorem sameSched_trans {s t u : WorldStore} (h1 : SameSched s t) (h2 : SameSched t u) :
    SameSched s u :=
  ⟨h2.1.trans h1.1, h2.2.1.trans h1.2.1, h2.2.2.trans h1.2.2⟩

theorem sameSched_markMeshDirty (s : WorldStore) (cx cz : Int) :
    SameSched s (s.markChunkMeshDirty cx cz) := by
  unfold WorldStore.markChunkMeshDirty
  cases assocFind s.chunks (chunkKey cx cz) <;> exact ⟨rfl, rfl, rfl⟩

theorem schedInv_of_sameSched {s t : WorldStore} (h : SameSched s t) (hi : SchedInv s) :
    SchedInv t := by
  unfold SchedInv at hi ⊢
  rw [h.1, h.2.1, h.2.2]
  exact hi

theorem sameSched_markBorderNeighbors (s : WorldStore) (r : ChunkLocal) :
    SameSched s (s.markBorderNeighbors r) := by
  unfold WorldStore.markBorderNeighbors
  split_ifs <;>
    first
      | exact sameSched_trans (sameSched_markMeshDirty _ _ _) (sameSched_markMeshDirty _ _ _)
      | exact sameSched_markMeshDirty _ _ _
      | exact sameSched_refl _

theorem sameSched_getBlock (s : WorldStore) (now : Nat) (x : ℚ) (y : Int) (z : ℚ) :
    SameSched s (s.getBlock now x y z).2 := by
  unfold WorldStore.getBlock
  split
  · exact sameSched_refl s
  · cases hf : assocFind s.chunks
        (chunkKey (worldToChunkLocal x z).cx (worldToChunkLocal x z).cz) with
    | none =>
      simp only [hf]
      exact sameSched_refl s
    | some st =>
      simp only [hf]
      exact ⟨rfl, rfl, rfl⟩

theorem sameSched_setBlock (s : WorldStore) (now : Nat) (x : ℚ) (y : Int) (z : ℚ)
    (b : Nat) : SameSched s (s.setBlock now x y z b).2 := by
  unfold WorldStore.setBlock
  split
  · exact sameSched_refl s
  · cases hf : assocFind s.chunks
        (chunkKey (worldToChunkLocal x z).cx (worldToChunkLocal x z).cz) with
    | none =>
      simp only [hf]
      exact sameSched_refl s
    | some st =>
      simp only [hf]
      split
      · exact sameSched_refl s
      · exact sameSched_trans (s := s) ⟨rfl, rfl, rfl⟩ (sameSched_markBorderNeighbors _ _)

theorem sameSched_unload (s : WorldStore) (x z : ℚ) (r : Nat) :
    SameSched s (s.unloadFarChunks x z r).1 :=
  ⟨rfl, rfl, rfl⟩

theorem sameSched_flush (s : WorldStore) : SameSched s s.flushDirtyChunks.1 :=
  ⟨rfl, rfl, rfl⟩

theorem sameSched_saveIfDirty (s : WorldStore) (cx cz : Int) :
    SameSched s (s.saveChunkIfDirty cx cz).1 := by
  unfold WorldStore.saveChunkIfDirty
  cases hf : assocFind s.chunks (chunkKey cx cz) with
  | none => exact sameSched_refl s
  | some st =>
    simp only [hf]
    by_cases hd : st.dirty = true
    · rw [if_pos hd]
      exact ⟨rfl, rfl, rfl⟩
    · rw [if_neg hd]
      exact sameSched_refl s

theorem schedInv_initial : SchedInv WorldStore.initial := by
  refine ⟨by simp [WorldStore.initial, maxConcurrentLoads], List.nodup_nil, ?_⟩
  intro k
  simp [WorldStore.initial]

theorem schedInv_queueAround (s : WorldStore) (x z : ℚ) (r : Nat) (h : SchedInv s) :
    SchedInv (s.queueChunksAround x z r) := by
  obtain ⟨hlen, hnd, hiff⟩ := h
  have hqueue : (s.queueChunksAround x z r).loadQueue =
      s.loadQueue ++ s.newlyQueuedKeys x z r := rfl
  have hloading : (s.queueChunksAround x z r).loadingKeys = s.loadingKeys := rfl
  refine ⟨by rw [hloading]; exact hlen, ?_, ?_⟩
  · rw [hqueue]
    refine List.Nodup.append hnd (nodup_newlyQueuedKeys s x z r) ?_
    intro k hk hknew
    have := mem_newlyQueuedKeys_fresh s x z r k hknew
    exact this (Or.inr (Or.inl ((hiff k).mpr hk)))
  · intro k
    have hqk : (s.queueChunksAround x z r).queuedKeys =
        (sortByDist (s.candidateTargets (worldToChunk x z) r)).foldl
          (fun q t => setAdd q t.1) s.queuedKeys := rfl
    rw [hqk, hqueue, mem_foldl_setAdd, List.mem_append, hiff k]
    unfold WorldStore.newlyQueuedKeys
    rfl

theorem schedInv_dequeue (s : WorldStore) (next : Key) (rest : List Key)
    (hq : s.loadQueue = next :: rest) (h : SchedInv s) :
    SchedInv { s with loadQueue := rest, queuedKeys := setDelete s.queuedKeys next } := by
  obtain ⟨hlen, hnd, hiff⟩ := h
  rw [hq, List.nodup_cons] at hnd
  refine ⟨hlen, hnd.2, ?_⟩
  intro k
  show k ∈ setDelete s.queuedKeys next ↔ k ∈ rest
  rw [mem_setDelete, hiff k, hq]
  constructor
  · rintro ⟨hk, hne⟩
    rcases List.mem_cons.mp hk with rfl | hk2
    · exact absurd rfl hne
    · exact hk2
  · intro hk
    refine ⟨List.mem_cons.mpr (Or.inr hk), ?_⟩
    rintro rfl
    exact hnd.1 hk

theorem schedInv_processStep (fuel : Nat) :
    ∀ s : WorldStore, SchedInv s → SchedInv (s.processStep fuel) := by
  induction fuel with
  | zero => intro s h; exact h
  | succ fuel ih =>
    intro s h
    unfold WorldStore.processStep
    split
    · rename_i hlt
      split
      · exact h
      · rename_i next rest hq
        split
        · exact ih _ (schedInv_dequeue s next rest hq h)
        · have h1 := schedInv_dequeue s next rest hq h
          refine ih _ ⟨?_, h1.2.1, h1.2.2⟩
          show (s.loadingKeys ++ [next]).length ≤ maxConcurrentLoads
          rw [List.length_append, List.length_singleton]
          omega
    · exact h

theorem schedInv_delete_loading (s t : WorldStore) (k : Key) (hst : SameSched s t)
    (h : SchedInv s) :
    SchedInv { t with loadingKeys := setDelete t.loadingKeys k } := by
  obtain ⟨hlen, hnd, hiff⟩ := h
  refine ⟨?_, ?_, ?_⟩
  · show (setDelete t.loadingKeys k).length ≤ _
    refine le_trans (List.length_filter_le _ _) ?_
    rw [hst.2.2]
    exact hlen
  · show t.loadQueue.Nodup
    rw [hst.1]
    exact hnd
  · intro k2
    show k2 ∈ t.queuedKeys ↔ k2 ∈ t.loadQueue
    rw [hst.1, hst.2.1]
    exact hiff k2

theorem schedInv_finishLoad (s : WorldStore) (cx cz : Int) (chunk : ChunkData) (now : Nat)
    (h : SchedInv s) : SchedInv (s.finishLoad cx cz chunk now) := by
  unfold WorldStore.finishLoad
  refine schedInv_delete_loading s _ _ ?_ h
  have h0 : SameSched s { s with chunks := assocSet s.chunks (chunkKey cx cz) (ChunkEntry.mk chunk false true now) } := ⟨rfl, rfl, rfl⟩
  exact sameSched_trans (sameSched_trans (sameSched_trans (sameSched_trans h0
    (sameSched_markMeshDirty _ (cx - 1) cz))
    (sameSched_markMeshDirty _ (cx + 1) cz))
    (sameSched_markMeshDirty _ cx (cz - 1)))
    (sameSched_markMeshDirty _ cx (cz + 1))

theorem schedInv_failLoad (s : WorldStore) (cx cz : Int) (h : SchedInv s) :
    SchedInv (s.failLoad cx cz) := by
  obtain ⟨hlen, hnd, hiff⟩ := h
  exact ⟨le_trans (List.length_filter_le _ _) hlen, hnd, hiff⟩

/-- Every reachable state of the world store satisfies the scheduler
bookkeeping invariant. -/
theorem schedInv_of_reachable (s : WorldStore) (h : Reachable s) : SchedInv s := by
  induction h with
  | init => exact schedInv_initial
  | queueAround s x z r _ ih => exact schedInv_queueAround s x z r ih
  | process s _ ih => exact schedInv_processStep _ s ih
  | finishOk s cx cz chunk now _ _ ih => exact schedInv_finishLoad s cx cz chunk now ih
  | finishFail s cx cz _ _ ih => exact schedInv_failLoad s cx cz ih
  | getB s now x y z _ ih => exact schedInv_of_sameSched (sameSched_getBlock s now x y z) ih
  | setB s now x y z b _ ih =>
    exact schedInv_of_sameSched (sameSched_setBlock s now x y z b) ih
  | unload s x z r _ ih => exact schedInv_of_sameSched (sameSched_unload s x z r) ih
  | flush s _ ih => exact schedInv_of_sameSched (sameSched_flush s) ih
  | saveIfDirty s cx cz _ ih => exact schedInv_of_sameSched (sameSched_saveIfDirty s cx cz) ih

/-- Claim C4: in every reachable state of the streaming scheduler, the number
of in-flight loads never exceeds the concurrency limit (2); and
`queueChunksAround` appends exactly its fresh candidate keys to the load
queue — pairwise distinct and never a key that is already resident, already
in the load queue (equivalently in the queued-key set), or in flight. -/
theorem scheduler_bounded_and_fresh (s : WorldStore) (h : Reachable s) :
    s.loadingKeys.length ≤ maxConcurrentLoads ∧
      (∀ x z : ℚ, ∀ r : Nat, (s.queueChunksAround x z r).loadQueue =
        s.loadQueue ++ s.newlyQueuedKeys x z r) ∧
      (∀ x z : ℚ, ∀ r : Nat, (s.newlyQueuedKeys x z r).Nodup) ∧
      ∀ x z : ℚ, ∀ r : Nat, ∀ k ∈ s.newlyQueuedKeys x z r,
        ¬((assocFind s.chunks k).isSome ∨ k ∈ s.loadQueue ∨ k ∈ s.queuedKeys ∨
          k ∈ s.loadingKeys) := by
  obtain ⟨hlen, _, hiff⟩ := schedInv_of_reachable s h
  refine ⟨hlen, fun x z r => rfl, fun x z r => nodup_newlyQueuedKeys s x z r, ?_⟩
  intro x z r k hk
  have hfresh := mem_newlyQueuedKeys_fresh s x z r k hk
  rintro (hres | hq | hqk | hload)
  · exact hfresh (Or.inl hres)
  · exact hfresh (Or.inr (Or.inl ((hiff k).mpr hq)))
  · exact hfresh (Or.inr (Or.inl hqk))
  · exact hfresh (Or.inr (Or.inr hload))

theorem assocFind_filter_key {α : Type} (f : Key → Bool) (l : List (Key × α)) (k : Key)
    (hk : f k = false) : assocFind (l.filter (fun p => !f p.1)) k = assocFind l k := by
  induction l with
  | nil => rfl
  | cons p rest ih =>
    obtain ⟨pk, pv⟩ := p
    rw [List.filter_cons]
    by_cases hpk : pk = k
    · subst hpk
      simp [hk, assocFind]
    · by_cases hf : f pk = true
      · simp [hf, assocFind, hpk, ih]
      · rw [Bool.not_eq_true] at hf
        simp [hf, assocFind, hpk, ih]

theorem assocFind_mem {α : Type} :
    ∀ (l : List (Key × α)) (k : Key) (e : α), assocFind l k = some e → (k, e) ∈ l := by
  intro l
  induction l with
  | nil => intro k e h; exact absurd h (by simp [assocFind])
  | cons p rest ih =>
    intro k e h
    obtain ⟨pk, pv⟩ := p
    unfold assocFind at h
    by_cases hpk : pk = k
    · rw [if_pos hpk] at h
      cases h
      subst hpk
      exact List.mem_cons_self _ _
    · rw [if_neg hpk] at h
      exact List.mem_cons_of_mem _ (ih k e h)

/-- Claim C5: a chunk that `unloadFarChunks` removes from the store while its
`dirty` flag is set has `saveChunk` persistence invoked for it (the second
component lists the save calls, all of which happen before the deletions) —
eviction never drops unsaved edits. -/
theorem unloadFarChunks_saves_dirty (s : WorldStore) (x z : ℚ) (r : Nat) (k : Key)
    (e : ChunkEntry) (hfind : assocFind s.chunks k = some e)
    (hremoved : assocFind (s.unloadFarChunks x z r).1.chunks k = none)
    (hdirty : e.dirty = true) :
    k ∈ (s.unloadFarChunks x z r).2 := by
  by_cases hfar : farFrom (worldToChunk x z) r k = true
  · show k ∈ (s.chunks.filter
      (fun p => farFrom (worldToChunk x z) r p.1 && p.2.dirty)).map (fun p => p.1)
    rw [List.mem_map]
    refine ⟨(k, e), ?_, rfl⟩
    rw [List.mem_filter]
    exact ⟨assocFind_mem s.chunks k e hfind, by simp [hfar, hdirty]⟩
  · rw [Bool.not_eq_true] at hfar
    have : assocFind (s.unloadFarChunks x z r).1.chunks k = assocFind s.chunks k :=
      assocFind_filter_key (farFrom (worldToChunk x z) r) s.chunks k hfar
    rw [hremoved, hfind] at this
    exact absurd this (by simp)

/-! ### Items, inventories and shared protocol values (src/types.ts,
src/shared/protocol.ts, server/inventory.ts, src/game/inventory.ts) -/

inductive ItemId where
  | grass_block
  | dirt
  | stone
  | wood
  | leaves
  | sand
  | plank
  | stick
  | pickaxe
  deriving DecidableEq, Repr

structure ItemStack where
  item : ItemId
  count : Int
  deriving DecidableEq, Repr

/-- The `ITEM_TO_BLOCK` table behind `itemToBlockId`. -/
def itemToBlockId : ItemId → Option Nat
  | ItemId.grass_block => some blockGrass
  | ItemId.dirt => some blockDirt
  | ItemId.stone => some blockStone
  | ItemId.wood => some blockWood
  | ItemId.leaves => some blockLeaves
  | ItemId.sand => some blockSand
  | _ => none

/-- `BLOCK_DEFS[b].drop` behind `blockIdToDrop` (air and water drop nothing). -/
def blockIdToDrop : Nat → Option ItemId
  | 1 => some ItemId.grass_block
  | 2 => some ItemId.dirt
  | 3 => some ItemId.stone
  | 4 => some ItemId.wood
  | 5 => some ItemId.leaves
  | 6 => some ItemId.sand
  | _ => none

/-- `BLOCK_DEFS[b].hardness`. -/
def blockHardness : Nat → ℚ
  | 1 => 1.2
  | 2 => 1
  | 3 => 2.2
  | 4 => 1.6
  | 5 => 0.4
  | 6 => 0.9
  | _ => 0

/-- `BLOCK_DEFS[b].solid` (air and water are not solid). -/
def isSolidBlock (b : Nat) : Bool :=
  b = 1 ∨ b = 2 ∨ b = 3 ∨ b = 4 ∨ b = 5 ∨ b = 6

/-- Hotbar + selected slot, the shape shared by the server's
`ServerInventory` and the client's `Inventory` class. -/
structure Inventory where
  hotbar : List (Option ItemStack)
  selectedSlot : Int
  deriving DecidableEq, Repr

/-- JS `hotbar[i]`: `undefined` out of range behaves like an empty slot. -/
def slotAt (hotbar : List (Option ItemStack)) (i : Int) : Option ItemStack :=
  if 0 ≤ i then hotbar.getD i.toNat none else none

/-- The server's `createStarterInventory()`. -/
def createStarterInventory : Inventory :=
  { selectedSlot := 0
    hotbar := [some ⟨ItemId.grass_block, 32⟩, some ⟨ItemId.dirt, 32⟩,
      some ⟨ItemId.stone, 32⟩, some ⟨ItemId.wood, 16⟩, some ⟨ItemId.sand, 16⟩,
      none, none, none, none] }

/-- First pass of the server's `addItem`: top up existing stacks of the same
item that are below `MAX_STACK`, stopping early when nothing remains. -/
def addItemExisting : List (Option ItemStack) → ItemId → Int →
    List (Option ItemStack) × Int
  | [], _, remaining => ([], remaining)
  | slot :: rest, item, remaining =>
    match slot with
    | some st =>
      if st.item = item ∧ st.count < (MAX_STACK : Int) then
        let canTake := min ((MAX_STACK : Int) - st.count) remaining
        let slot1 : Option ItemStack := some ⟨st.item, st.count + canTake⟩
        if remaining - canTake = 0 then (slot1 :: rest, 0)
        else
          let (rest1, rem1) := addItemExisting rest item (remaining - canTake)
          (slot1 :: rest1, rem1)
      else
        let (rest1, rem1) := addItemExisting rest item remaining
        (slot :: rest1, rem1)
    | none =>
      let (rest1, rem1) := addItemExisting rest item remaining
      (slot :: rest1, rem1)

/-- Second pass of the server's `addItem`: fill empty slots. -/
def addItemEmpty : List (Option ItemStack) → ItemId → Int →
    List (Option ItemStack) × Int
  | [], _, remaining => ([], remaining)
  | slot :: rest, item, remaining =>
    match slot with
    | none =>
      let add := min (MAX_STACK : Int) remaining
      let slot1 : Option ItemStack := some ⟨item, add⟩
      if remaining - add = 0 then (slot1 :: rest, 0)
      else
        let (rest1, rem1) := addItemEmpty rest item (remaining - add)
        (slot1 :: rest1, rem1)
    | some _ =>
      let (rest1, rem1) := addItemEmpty rest item remaining
      (slot :: rest1, rem1)

/-- The server's `addItem(inventory, item, count)`, returning the updated
inventory and the remainder that did not fit. -/
def addItem (inv : Inventory) (item : ItemId) (count : Int) : Inventory × Int :=
  let (h1, r1) := addItemExisting inv.hotbar item count
  if r1 = 0 then ({ inv with hotbar := h1 }, 0)
  else
    let (h2, r2) := addItemEmpty h1 item r1
    ({ inv with hotbar := h2 }, r2)

/-- The server's `consumeSelected(inventory, count)`: `none` models the
`false` return (and then the source mutates nothing). -/
def consumeSelected (inv : Inventory) (count : Int) : Option Inventory :=
  match slotAt inv.hotbar inv.selectedSlot with
  | none => none
  | some st =>
    if st.count < count then none
    else
      let newCount := st.count - count
      let slot1 : Option ItemStack := if newCount ≤ 0 then none else some ⟨st.item, newCount⟩
      some { inv with hotbar := inv.hotbar.set inv.selectedSlot.toNat slot1 }

/-- The client `Inventory` constructor: nine slots, copied from the prefix of
the given initial list. -/
def inventoryNew (initial : List (Option ItemStack)) : Inventory :=
  { hotbar := (List.range HOTBAR_SIZE).map (fun i => initial.getD i none), selectedSlot := 0 }

/-- The client's `Inventory.setSelected`: JS double-`%` floored modulo into
`[0, HOTBAR_SIZE)`. -/
def Inventory.setSelected (inv : Inventory) (index : Int) : Inventory :=
  { inv with selectedSlot := jsRem (jsRem index (HOTBAR_SIZE : Int) + (HOTBAR_SIZE : Int)) (HOTBAR_SIZE : Int) }

/-- `Vec3` of server/vector.ts (and the `x/y/z` triple of `THREE.Vector3`). -/
structure Vec3 where
  x : ℚ
  y : ℚ
  z : ℚ
  deriving DecidableEq, Repr

def distanceSquared (a b : Vec3) : ℚ :=
  (a.x - b.x) * (a.x - b.x) + (a.y - b.y) * (a.y - b.y) + (a.z - b.z) * (a.z - b.z)

structure CollisionBody where
  halfWidth : ℚ
  height : ℚ
  deriving DecidableEq, Repr

/-- The source's `aabbIntersectsBlock` (server/physics.ts). -/
def aabbIntersectsBlock (position : Vec3) (body : CollisionBody) (bx0 by0 bz0 : Int) : Bool :=
  position.x - body.halfWidth < (bx0 : ℚ) + 1 ∧ position.x + body.halfWidth > (bx0 : ℚ) ∧
    position.y < (by0 : ℚ) + 1 ∧ position.y + body.height > (by0 : ℚ) ∧
    position.z - body.halfWidth < (bz0 : ℚ) + 1 ∧ position.z + body.halfWidth > (bz0 : ℚ)

structure BlockDelta where
  x : Int
  y : Int
  z : Int
  block : Nat
  deriving DecidableEq, Repr

/-- The only server→client message the mine/place handlers can emit. -/
inductive OutMsg where
  | inventoryUpdate (hotbar : List (Option ItemStack)) (selectedSlot : Int)
  deriving DecidableEq, Repr

/-! ### Authoritative server world (server/world.ts)

The chunk file directory is modelled as an immutable `storage` function from
chunk key to (optional) raw little-endian byte content; `getChunk` caches
loaded or generated chunks in the `chunks` map and `setBlock` tracks dirty
chunk keys. -/

structure AuthoritativeWorld where
  chunks : List (Key × ChunkData)
  dirty : List Key
  storage : Key → Option (List Nat)
  gen : WorldGenerator

/-- The load-or-generate fallback of `getChunk`: a persisted buffer is used
only when its byte length is exactly `2 * 16 * 96 * 16`, else the chunk is
regenerated. -/
def AuthoritativeWorld.loadOrGen (w : AuthoritativeWorld) (cx cz : Int) : ChunkData :=
  match w.storage (cx, cz) with
  | some raw =>
    if raw.length = 2 * BLOCKS_PER_CHUNK then ChunkData.mk cx cz (bytesToU16sLE raw)
    else w.gen.generateChunk cx cz
  | none => w.gen.generateChunk cx cz

/-- The source's `AuthoritativeWorld.getChunk`: serve from cache, else load
or generate and cache. -/
def AuthoritativeWorld.getChunk (w : AuthoritativeWorld) (cx cz : Int) :
    ChunkData × AuthoritativeWorld :=
  match assocFind w.chunks (cx, cz) with
  | some c => (c, w)
  | none =>
    let c := w.loadOrGen cx cz
    (c, ⟨assocSet w.chunks (cx, cz) c, w.dirty, w.storage, w.gen⟩)

/-- The chunk the server would serve for `(cx, cz)` (cache-independent pure
view used to state frame conditions). -/
def AuthoritativeWorld.chunkAt (w : AuthoritativeWorld) (cx cz : Int) : ChunkData :=
  match assocFind w.chunks (cx, cz) with
  | some c => c
  | none => w.loadOrGen cx cz

/-- The source's `AuthoritativeWorld.getBlock` (returns the possibly grown
cache as well). -/
def AuthoritativeWorld.getBlock (w : AuthoritativeWorld) (x : ℚ) (y : Int) (z : ℚ) :
    Nat × AuthoritativeWorld :=
  if y < 0 ∨ WORLD_HEIGHT ≤ y then (blockAir, w)
  else
    let fx := jsFloor x
    let fz := jsFloor z
    let cx := floorDiv fx CHUNK_SIZE
    let cz := floorDiv fz CHUNK_SIZE
    let lx := jsMod fx CHUNK_SIZE
    let lz := jsMod fz CHUNK_SIZE
    let cw := w.getChunk cx cz
    (cw.1.get lx y lz, cw.2)

/-- Pure view of `getBlock` (value only). -/
def AuthoritativeWorld.blockAt (w : AuthoritativeWorld) (x : ℚ) (y : Int) (z : ℚ) : Nat :=
  if y < 0 ∨ WORLD_HEIGHT ≤ y then blockAir
  else
    (w.chunkAt (floorDiv (jsFloor x) CHUNK_SIZE) (floorDiv (jsFloor z) CHUNK_SIZE)).get
      (jsMod (jsFloor x) CHUNK_SIZE) y (jsMod (jsFloor z) CHUNK_SIZE)

/-- The source's `AuthoritativeWorld.setBlock`: no-op returning `false` for
out-of-range `y` or an unchanged value; otherwise write the cell and mark the
chunk key dirty. -/
def AuthoritativeWorld.setBlock (w : AuthoritativeWorld) (x : ℚ) (y : Int) (z : ℚ)
    (block : Nat) : Bool × AuthoritativeWorld :=
  if y < 0 ∨ WORLD_HEIGHT ≤ y then (false, w)
  else
    let fx := jsFloor x
    let fz := jsFloor z
    let cx := floorDiv fx CHUNK_SIZE
    let cz := floorDiv fz CHUNK_SIZE
    let lx := jsMod fx CHUNK_SIZE
    let lz := jsMod fz CHUNK_SIZE
    let cw := w.getChunk cx cz
    let old := cw.1.get lx y lz
    if old = block then (false, cw.2)
    else
      (true, ⟨assocSet cw.2.chunks (cx, cz) (cw.1.set lx y lz block),
        setAdd cw.2.dirty (cx, cz), cw.2.storage, cw.2.gen⟩)

theorem assocFind_map_set_self {α : Type} (k : Key) (v : α) :
    ∀ m : List (Key × α), (assocFind m k).isSome →
      assocFind (m.map (fun p => if p.1 = k then (k, v) else p)) k = some v := by
  intro m
  induction m with
  | nil => intro h; exact absurd h (by simp [assocFind])
  | cons p rest ih =>
    intro h
    obtain ⟨pk, pv⟩ := p
    simp only [List.map_cons]
    by_cases hpk : pk = k
    · subst hpk
      rw [if_pos rfl]
      show assocFind ((pk, v) :: _) pk = some v
      unfold assocFind
      rw [if_pos rfl]
    · unfold assocFind at h
      rw [if_neg hpk] at h
      rw [if_neg (by simpa using hpk)]
      show assocFind ((pk, pv) :: _) k = some v
      unfold assocFind
      rw [if_neg hpk]
      exact ih h

theorem assocFind_map_set_other {α : Type} (k : Key) (v : α) (k2 : Key) (hne : k2 ≠ k) :
    ∀ m : List (Key × α),
      assocFind (m.map (fun p => if p.1 = k then (k, v) else p)) k2 = assocFind m k2 := by
  intro m
  induction m with
  | nil => rfl
  | cons p rest ih =>
    obtain ⟨pk, pv⟩ := p
    by_cases hpk : pk = k
    · subst hpk
      simp only [List.map_cons, if_pos rfl]
      show assocFind ((pk, v) :: _) k2 = _
      unfold assocFind
      rw [if_neg (fun h => hne h.symm), if_neg (fun h => hne h.symm)]
      exact ih
    · simp only [List.map_cons]
      rw [if_neg (by simpa using hpk)]
      show assocFind ((pk, pv) :: _) k2 = _
      unfold assocFind
      by_cases hpk2 : pk = k2
      · rw [if_pos hpk2, if_pos hpk2]
      · rw [if_neg hpk2, if_neg hpk2]
        exact ih

theorem assocFind_append_single {α : Type} (k : Key) (v : α) (k2 : Key) :
    ∀ m : List (Key × α),
      assocFind (m ++ [(k, v)]) k2 =
        match assocFind m k2 with
        | some w => some w
        | none => if k = k2 then some v else none := by
  intro m
  induction m with
  | nil => rfl
  | cons p rest ih =>
    obtain ⟨pk, pv⟩ := p
    show assocFind ((pk, pv) :: (rest ++ [(k, v)])) k2 = _
    unfold assocFind
    by_cases hpk : pk = k2
    · rw [if_pos hpk, if_pos hpk]
    · rw [if_neg hpk, if_neg hpk]
      exact ih

/-- `Map.set` then lookup: the set key reads back the new value, other keys
are unaffected. -/
theorem assocFind_assocSet {α : Type} (m : List (Key × α)) (k : Key) (v : α) (k2 : Key) :
    assocFind (assocSet m k v) k2 = if k2 = k then some v else assocFind m k2 := by
  unfold assocSet
  by_cases hs : (assocFind m k).isSome
  · rw [if_pos hs]
    by_cases hk : k2 = k
    · subst hk
      rw [if_pos rfl]
      exact assocFind_map_set_self k2 v m hs
    · rw [if_neg hk]
      exact assocFind_map_set_other k v k2 hk m
  · rw [if_neg hs]
    rw [assocFind_append_single k v k2 m]
    by_cases hk : k2 = k
    · subst hk
      have : assocFind m k2 = none := by
        cases h : assocFind m k2
        · rfl
        · rw [h] at hs
          exact absurd rfl hs
      rw [this, if_pos rfl]
    · cases h : assocFind m k2 with
      | none => rw [if_neg (fun he => hk he.symm), if_neg hk]
      | some val => rw [if_neg hk]

/-! ### Server players and action handlers (server/room.ts) -/

structure PlayerControl where
  seq : Int
  dt : ℚ
  moveX : ℚ
  moveZ : ℚ
  jump : Bool
  sprint : Bool
  yaw : ℚ
  pitch : ℚ
  deriving DecidableEq, Repr

structure ServerPlayer where
  id : String
  nickname : String
  position : Vec3
  velocity : Vec3
  yaw : ℚ
  pitch : ℚ
  health : ℚ
  onGround : Bool
  inventory : Inventory
  knownChunks : List Key
  control : PlayerControl
  lastMineAtMs : Int
  lastAttackAtMs : Int
  lastProcessedSeq : Int
  deriving DecidableEq, Repr

/-- The source's `withinReach`: squared distance from the player's eye to the
target cell's center, compared against the squared range. -/
def withinReach (player : ServerPlayer) (x y z : Int) (range : ℚ) : Bool :=
  let eye : Vec3 := ⟨player.position.x, player.position.y + PLAYER_EYE_HEIGHT, player.position.z⟩
  let center : Vec3 := ⟨(x : ℚ) + 0.5, (y : ℚ) + 0.5, (z : ℚ) + 0.5⟩
  distanceSquared eye center ≤ range * range

/-- The result of one action handler call: the (possibly updated) player,
world, accumulated block-delta buffer, and the messages sent to the player. -/
structure ActionResult where
  player : ServerPlayer
  world : AuthoritativeWorld
  changedBlocks : List BlockDelta
  sent : List OutMsg

/-- The source's `RoomServer.handleMineAction`: reach check, air/water check,
hardness-derived rate limit, then remove the block, record the delta, update
the mine timestamp, and grant the drop (sending `inventory_update`). -/
def handleMineAction (world : AuthoritativeWorld) (player : ServerPlayer)
    (changed : List BlockDelta) (now : Int) (x y z : ℚ) : ActionResult :=
  let bx0 := jsFloor x
  let by0 := jsFloor y
  let bz0 := jsFloor z
  if ¬ withinReach player bx0 by0 bz0 6.2 then ⟨player, world, changed, []⟩
  else
    let bw := world.getBlock (bx0 : ℚ) by0 (bz0 : ℚ)
    if bw.1 = blockAir ∨ bw.1 = blockWater then ⟨player, bw.2, changed, []⟩
    else
      let hardness := max 0.2 (blockHardness bw.1)
      let minIntervalMs := hardness * 180
      if ((now - player.lastMineAtMs : Int) : ℚ) < minIntervalMs then
        ⟨player, bw.2, changed, []⟩
      else
        let ow := bw.2.setBlock (bx0 : ℚ) by0 (bz0 : ℚ) blockAir
        if ow.1 then
          let player1 := { player with lastMineAtMs := now }
          let changed1 := changed ++ [⟨bx0, by0, bz0, blockAir⟩]
          match blockIdToDrop bw.1 with
          | some drop =>
            let ir := addItem player1.inventory drop 1
            ⟨{ player1 with inventory := ir.1 }, ow.2, changed1,
              [OutMsg.inventoryUpdate ir.1.hotbar ir.1.selectedSlot]⟩
          | none => ⟨player1, ow.2, changed1, []⟩
        else ⟨player, ow.2, changed, []⟩

/-- The source's `RoomServer.handlePlaceAction`: slot bounds check, then the
(mutating!) selected-slot update, item/placeability checks, vertical bounds,
reach check, occupancy check, player-AABB check, inventory consumption, and
finally the block write with delta recording and `inventory_update`. -/
def handlePlaceAction (world : AuthoritativeWorld) (player0 : ServerPlayer)
    (changed : List BlockDelta) (target normal : Vec3) (selectedSlot : Int) : ActionResult :=
  if selectedSlot < 0 ∨ (HOTBAR_SIZE : Int) ≤ selectedSlot then ⟨player0, world, changed, []⟩
  else
    let player := { player0 with inventory := { player0.inventory with selectedSlot := selectedSlot } }
    match slotAt player.inventory.hotbar selectedSlot with
    | none => ⟨player, world, changed, []⟩
    | some slot =>
      match itemToBlockId slot.item with
      | none => ⟨player, world, changed, []⟩
      | some placeBlock =>
        let px := jsFloor (target.x + normal.x)
        let py := jsFloor (target.y + normal.y)
        let pz := jsFloor (target.z + normal.z)
        if py < 0 ∨ WORLD_HEIGHT ≤ py then ⟨player, world, changed, []⟩
        else if ¬ withinReach player px py pz 6.2 then ⟨player, world, changed, []⟩
        else
          let ew := world.getBlock (px : ℚ) py (pz : ℚ)
          if ew.1 ≠ blockAir ∧ ew.1 ≠ blockWater then ⟨player, ew.2, changed, []⟩
          else if aabbIntersectsBlock player.position ⟨PLAYER_HALF_WIDTH, PLAYER_HEIGHT⟩
              px py pz then ⟨player, ew.2, changed, []⟩
          else
            match consumeSelected player.inventory 1 with
            | none => ⟨player, ew.2, changed, []⟩
            | some inv1 =>
              let player1 := { player with inventory := inv1 }
              let ow := ew.2.setBlock (px : ℚ) py (pz : ℚ) placeBlock
              if ow.1 then
                ⟨player1, ow.2, changed ++ [⟨px, py, pz, placeBlock⟩],
                  [OutMsg.inventoryUpdate inv1.hotbar inv1.selectedSlot]⟩
              else ⟨player1, ow.2, changed, []⟩

/-! ### Client reconciliation (src/game/multiplayerGame.ts) -/

structure PendingInput where
  seq : Int
  dt : ℚ
  moveX : ℚ
  moveZ : ℚ
  jump : Bool
  sprint : Bool
  yaw : ℚ
  pitch : ℚ
  deriving DecidableEq, Repr

structure NetPlayerState where
  id : String
  nickname : String
  x : ℚ
  y : ℚ
  z : ℚ
  vx : ℚ
  vy : ℚ
  vz : ℚ
  yaw : ℚ
  pitch : ℚ
  health : ℚ
  selectedSlot : Int
  hotbar : List (Option ItemStack)
  lastProcessedSeq : Option Int
  deriving DecidableEq, Repr

/-- The client-side local player state touched by the reconciliation path. -/
structure ClientLocalState where
  position : Vec3
  velocity : Vec3
  health : ℚ
  yaw : ℚ
  pitch : ℚ
  inventory : Inventory
  pendingInputs : List PendingInput
  deriving DecidableEq, Repr

/-- `THREE.Vector3.lerp(v, t)`. -/
def vlerp (a b : Vec3) (t : ℚ) : Vec3 :=
  ⟨a.x + (b.x - a.x) * t, a.y + (b.y - a.y) * t, a.z + (b.z - a.z) * t⟩

/-- The source's `MultiplayerGame.applyLocalReconciliation`. The source
compares `distanceTo` (a square root) against `2.5` and `0.15`; since both
sides are non-negative this is equivalent to comparing the squared distance
against the squared thresholds, which is how the branch is embedded. The
`while`-`shift` loop over `pendingInputs` is `dropWhile` on the head. -/
def applyLocalReconciliation (c : ClientLocalState) (st : NetPlayerState) :
    ClientLocalState :=
  let authPos : Vec3 := ⟨st.x, st.y, st.z⟩
  let d2 := distanceSquared authPos c.position
  let pos1 := if d2 > 2.5 * 2.5 then authPos
    else if d2 > 0.15 * 0.15 then vlerp c.position authPos 0.35
    else c.position
  let inv1 := (inventoryNew st.hotbar).setSelected st.selectedSlot
  let pending1 := match st.lastProcessedSeq with
    | some ack => c.pendingInputs.dropWhile (fun p => p.seq ≤ ack)
    | none => c.pendingInputs
  { position := pos1, velocity := ⟨st.vx, st.vy, st.vz⟩, health := st.health,
    yaw := st.yaw, pitch := st.pitch, inventory := inv1, pendingInputs := pending1 }

theorem dropWhile_le_eq_filter (ack : Int) :
    ∀ l : List PendingInput, l.Pairwise (fun a b => a.seq ≤ b.seq) →
      l.dropWhile (fun p => p.seq ≤ ack) = l.filter (fun p => ack < p.seq) := by
  intro l
  induction l with
  | nil => intro _; rfl
  | cons a l ih =>
    intro hp
    rw [List.pairwise_cons] at hp
    by_cases ha : a.seq ≤ ack
    · rw [List.dropWhile_cons_of_pos (by simpa using ha),
        List.filter_cons_of_neg (by simpa using ha)]
      exact ih hp.2
    · push_neg at ha
      rw [List.dropWhile_cons_of_neg (by simpa using ha),
        List.filter_cons_of_pos (by simpa using ha)]
      rw [List.filter_eq_self.mpr]
      intro b hb
      have := hp.1 b hb
      simp only [decide_eq_true_iff]
      omega

theorem setSelected_emod (i : Int) :
    jsRem (jsRem i (HOTBAR_SIZE : Int) + (HOTBAR_SIZE : Int)) (HOTBAR_SIZE : Int) =
      i % (HOTBAR_SIZE : Int) := by
  unfold jsRem HOTBAR_SIZE
  split_ifs <;> omega

theorem inventoryNew_getD (initial : List (Option ItemStack)) (i : Nat)
    (h : i < HOTBAR_SIZE) :
    (inventoryNew initial).hotbar.getD i none = initial.getD i none := by
  show ((List.range HOTBAR_SIZE).map (fun j => initial.getD j none)).getD i none = _
  rw [List.getD_eq_getElem?_getD, List.getElem?_map, List.getElem?_range h]
  rfl

/-- Claim C6: applying an authoritative snapshot to the local player always
overwrites velocity, health, yaw, pitch, and the inventory (hotbar contents
and floor-mod-normalised selected slot) with the snapshot's values —
regardless of the position-distance branch taken — and discards exactly the
buffered pending inputs whose sequence number is at most the server's
last-processed sequence number (the buffer is sorted by sequence number, as
the client pushes strictly increasing sequence numbers). -/
theorem reconciliation_overwrites_and_discards (c : ClientLocalState)
    (st : NetPlayerState) (ack : Int) (hack : st.lastProcessedSeq = some ack)
    (hsorted : c.pendingInputs.Pairwise (fun a b => a.seq ≤ b.seq)) :
    let c2 := applyLocalReconciliation c st
    c2.velocity = ⟨st.vx, st.vy, st.vz⟩ ∧ c2.health = st.health ∧ c2.yaw = st.yaw ∧
      c2.pitch = st.pitch ∧
      (∀ i : Nat, i < HOTBAR_SIZE →
        c2.inventory.hotbar.getD i none = st.hotbar.getD i none) ∧
      c2.inventory.selectedSlot = st.selectedSlot % (HOTBAR_SIZE : Int) ∧
      c2.pendingInputs = c.pendingInputs.filter (fun p => ack < p.seq) := by
  intro c2
  refine ⟨rfl, rfl, rfl, rfl, ?_, ?_, ?_⟩
  · intro i hi
    exact inventoryNew_getD st.hotbar i hi
  · exact setSelected_emod st.selectedSlot
  · show (match st.lastProcessedSeq with
      | some ack2 => c.pendingInputs.dropWhile (fun (p : PendingInput) => p.seq ≤ ack2)
      | none => c.pendingInputs) = _
    rw [hack]
    exact dropWhile_le_eq_filter ack c.pendingInputs hsorted

/-! ### Frame lemmas for the server world cache -/

theorem loadOrGen_ext (w w2 : AuthoritativeWorld) (hs : w2.storage = w.storage)
    (hg : w2.gen = w.gen) (cx cz : Int) : w2.loadOrGen cx cz = w.loadOrGen cx cz := by
  unfold AuthoritativeWorld.loadOrGen
  rw [hs, hg]

theorem getChunk_found (w : AuthoritativeWorld) (cx cz : Int) (c : ChunkData)
    (h : assocFind w.chunks (cx, cz) = some c) : w.getChunk cx cz = (c, w) := by
  unfold AuthoritativeWorld.getChunk
  rw [h]

theorem getChunk_fst (w : AuthoritativeWorld) (cx cz : Int) :
    (w.getChunk cx cz).1 = w.chunkAt cx cz := by
  unfold AuthoritativeWorld.getChunk AuthoritativeWorld.chunkAt
  cases h : assocFind w.chunks (cx, cz) <;> simp [h]

theorem getChunk_dirty (w : AuthoritativeWorld) (cx cz : Int) :
    (w.getChunk cx cz).2.dirty = w.dirty := by
  unfold AuthoritativeWorld.getChunk
  cases h : assocFind w.chunks (cx, cz) <;> simp [h]

theorem getChunk_storage (w : AuthoritativeWorld) (cx cz : Int) :
    (w.getChunk cx cz).2.storage = w.storage := by
  unfold AuthoritativeWorld.getChunk
  cases h : assocFind w.chunks (cx, cz) <;> simp [h]

theorem getChunk_gen (w : AuthoritativeWorld) (cx cz : Int) :
    (w.getChunk cx cz).2.gen = w.gen := by
  unfold AuthoritativeWorld.getChunk
  cases h : assocFind w.chunks (cx, cz) <;> simp [h]

/-- Caching a missing chunk does not change what any chunk coordinate reads
as: the cached value is exactly what would have been loaded or generated. -/
theorem getChunk_chunkAt (w : AuthoritativeWorld) (cx cz a b : Int) :
    (w.getChunk cx cz).2.chunkAt a b = w.chunkAt a b := by
  unfold AuthoritativeWorld.getChunk
  cases h : assocFind w.chunks (cx, cz) with
  | some c => simp [h]
  | none =>
    simp only [h]
    show AuthoritativeWorld.chunkAt ⟨assocSet w.chunks (cx, cz) (w.loadOrGen cx cz),
      w.dirty, w.storage, w.gen⟩ a b = w.chunkAt a b
    unfold AuthoritativeWorld.chunkAt
    rw [assocFind_assocSet]
    by_cases hk : ((a, b) : Key) = (cx, cz)
    · rw [if_pos hk]
      have ha : a = cx := congrArg Prod.fst hk
      have hb : b = cz := congrArg Prod.snd hk
      subst ha
      subst hb
      rw [h]
    · rw [if_neg hk]
      cases h2 : assocFind w.chunks ((a, b) : Key) with
      | some c2 => rfl
      | none => exact loadOrGen_ext w _ rfl rfl a b

theorem blockAt_ext (w w2 : AuthoritativeWorld)
    (h : ∀ a b : Int, w2.chunkAt a b = w.chunkAt a b) (x : ℚ) (y : Int) (z : ℚ) :
    w2.blockAt x y z = w.blockAt x y z := by
  unfold AuthoritativeWorld.blockAt
  by_cases hy : y < 0 ∨ WORLD_HEIGHT ≤ y
  · rw [if_pos hy, if_pos hy]
  · rw [if_neg hy, if_neg hy]
    simp only [h]

theorem getBlock_fst (w : AuthoritativeWorld) (x : ℚ) (y : Int) (z : ℚ) :
    (w.getBlock x y z).1 = w.blockAt x y z := by
  unfold AuthoritativeWorld.getBlock AuthoritativeWorld.blockAt
  by_cases hy : y < 0 ∨ WORLD_HEIGHT ≤ y
  · rw [if_pos hy, if_pos hy]
  · rw [if_neg hy, if_neg hy]
    simp only [getChunk_fst]

theorem getBlock_snd_chunkAt (w : AuthoritativeWorld) (x : ℚ) (y : Int) (z : ℚ)
    (a b : Int) : (w.getBlock x y z).2.chunkAt a b = w.chunkAt a b := by
  unfold AuthoritativeWorld.getBlock
  by_cases hy : y < 0 ∨ WORLD_HEIGHT ≤ y
  · rw [if_pos hy]
  · rw [if_neg hy]
    simp only [getChunk_chunkAt]

theorem getBlock_snd_dirty (w : AuthoritativeWorld) (x : ℚ) (y : Int) (z : ℚ) :
    (w.getBlock x y z).2.dirty = w.dirty := by
  unfold AuthoritativeWorld.getBlock
  by_cases hy : y < 0 ∨ WORLD_HEIGHT ≤ y
  · rw [if_pos hy]
  · rw [if_neg hy]
    simp only [getChunk_dirty]

theorem getBlock_snd_blockAt (w : AuthoritativeWorld) (x : ℚ) (y : Int) (z : ℚ)
    (a : ℚ) (b : Int) (c : ℚ) : (w.getBlock x y z).2.blockAt a b c = w.blockAt a b c :=
  blockAt_ext w _ (fun a2 b2 => getBlock_snd_chunkAt w x y z a2 b2) a b c

/-- The same-value early return of the server's `setBlock`: the result is
`false` and the world is exactly the (possibly cache-grown) world of the
internal `getChunk`. -/
theorem server_setBlock_same (w : AuthoritativeWorld) (x : ℚ) (y : Int) (z : ℚ) (b : Nat)
    (h : w.blockAt x y z = b) : w.setBlock x y z b = (false, (w.getBlock x y z).2) := by
  unfold AuthoritativeWorld.setBlock AuthoritativeWorld.getBlock
  unfold AuthoritativeWorld.blockAt at h
  by_cases hy : y < 0 ∨ WORLD_HEIGHT ≤ y
  · rw [if_pos hy, if_pos hy]
  · rw [if_neg hy, if_neg hy]
    rw [if_neg hy] at h
    simp only [getChunk_fst]
    rw [if_pos h]

theorem jsFloor_intCast (n : Int) : jsFloor ((n : Int) : ℚ) = n := by
  rw [jsFloor_eq]
  exact Int.floor_intCast n

theorem client_setBlock_same (s : WorldStore) (now : Nat) (x : ℚ) (y : Int) (z : ℚ)
    (b : Nat) (h : (s.getBlock now x y z).1 = b) : s.setBlock now x y z b = (false, s) := by
  unfold WorldStore.getBlock at h
  unfold WorldStore.setBlock
  by_cases hy : y < 0 ∨ WORLD_HEIGHT ≤ y
  · rw [if_pos hy]
  · rw [if_neg hy]
    rw [if_neg hy] at h
    cases hf : assocFind s.chunks
        (chunkKey (worldToChunkLocal x z).cx (worldToChunkLocal x z).cz) with
    | none => simp only [hf]
    | some st =>
      simp only [hf] at h ⊢
      rw [if_pos h]

/-- Claim C10: writing the value a cell already holds is a no-op returning
`false`: the client store is returned completely unchanged (no dirty or
mesh-dirty flag, no neighbour marking, not even `lastTouched`), and the
server world's dirty set and every readable block are unchanged (only the
chunk cache may have been populated by the internal `getChunk`). -/
theorem setBlock_unchanged_value_noop :
    (∀ (s : WorldStore) (now : Nat) (x : ℚ) (y : Int) (z : ℚ) (b : Nat),
      (WorldStore.getBlock s now x y z).1 = b →
        WorldStore.setBlock s now x y z b = (false, s)) ∧
    (∀ (w : AuthoritativeWorld) (x : ℚ) (y : Int) (z : ℚ) (b : Nat),
      AuthoritativeWorld.blockAt w x y z = b →
        (AuthoritativeWorld.setBlock w x y z b).1 = false ∧
        (AuthoritativeWorld.setBlock w x y z b).2.dirty = w.dirty ∧
        ∀ (a : ℚ) (y2 : Int) (c : ℚ),
          (AuthoritativeWorld.setBlock w x y z b).2.blockAt a y2 c = w.blockAt a y2 c) := by
  constructor
  · exact client_setBlock_same
  · intro w x y z b h
    have he := server_setBlock_same w x y z b h
    refine ⟨by rw [he], by rw [he]; exact getBlock_snd_dirty w x y z, ?_⟩
    intro a y2 c
    rw [he]
    exact getBlock_snd_blockAt w x y z a y2 c

/-! ### Helper lemmas for the mine/place handlers -/

theorem blockAt_in_range (w : AuthoritativeWorld) (x : ℚ) (y : Int) (z : ℚ)
    (h : w.blockAt x y z ≠ blockAir) : ¬(y < 0 ∨ WORLD_HEIGHT ≤ y) := by
  intro hy
  apply h
  unfold AuthoritativeWorld.blockAt
  rw [if_pos hy]

theorem get_set_air (c : ChunkData) (lx y lz : Int) :
    (c.set lx y lz blockAir).get lx y lz = blockAir := by
  by_cases hib : ChunkData.inBounds lx y lz = true
  · unfold ChunkData.set ChunkData.get
    rw [if_pos hib, if_pos hib]
    show (c.blocks.set (ChunkData.index lx y lz) (blockAir % 65536)).getD
      (ChunkData.index lx y lz) 0 = blockAir
    rcases Nat.lt_or_ge (ChunkData.index lx y lz) c.blocks.length with hlt | hge
    · rw [List.getD_eq_getElem?_getD, List.getElem?_set_self (by simpa using hlt)]
      rfl
    · rw [List.set_eq_of_length_le hge, List.getD_eq_default _ _ (by simpa using hge)]
      rfl
  · unfold ChunkData.set ChunkData.get
    rw [if_neg hib]
    rfl

theorem server_setBlock_result (w : AuthoritativeWorld) (x : ℚ) (y : Int) (z : ℚ)
    (b : Nat) (hy : ¬(y < 0 ∨ WORLD_HEIGHT ≤ y)) (h : w.blockAt x y z ≠ b) :
    (w.setBlock x y z b).1 = true := by
  unfold AuthoritativeWorld.setBlock
  unfold AuthoritativeWorld.blockAt at h
  rw [if_neg hy]
  rw [if_neg hy] at h
  simp only [getChunk_fst]
  rw [if_neg h]

theorem getChunk_snd_found (w : AuthoritativeWorld) (cx cz : Int) :
    (assocFind (w.getChunk cx cz).2.chunks (cx, cz)).isSome = true := by
  unfold AuthoritativeWorld.getChunk
  cases h : assocFind w.chunks (cx, cz) with
  | some c => simp [h]
  | none =>
    simp only [h]
    show (assocFind (assocSet w.chunks (cx, cz) (w.loadOrGen cx cz)) (cx, cz)).isSome = true
    rw [assocFind_assocSet]
    rw [if_pos rfl]
    rfl

theorem server_setBlock_caches (w : AuthoritativeWorld) (x : ℚ) (y : Int) (z : ℚ)
    (b : Nat) (hy : ¬(y < 0 ∨ WORLD_HEIGHT ≤ y)) :
    (assocFind (w.setBlock x y z b).2.chunks
      (floorDiv (jsFloor x) CHUNK_SIZE, floorDiv (jsFloor z) CHUNK_SIZE)).isSome = true := by
  unfold AuthoritativeWorld.setBlock
  rw [if_neg hy]
  by_cases hsame : (w.getChunk (floorDiv (jsFloor x) CHUNK_SIZE)
      (floorDiv (jsFloor z) CHUNK_SIZE)).1.get (jsMod (jsFloor x) CHUNK_SIZE) y
      (jsMod (jsFloor z) CHUNK_SIZE) = b
  · simp only [hsame, if_pos rfl]
    exact getChunk_snd_found w _ _
  · simp only [if_neg hsame]
    show (assocFind (assocSet _ (floorDiv (jsFloor x) CHUNK_SIZE,
      floorDiv (jsFloor z) CHUNK_SIZE) _) _).isSome = true
    rw [assocFind_assocSet, if_pos rfl]
    rfl

theorem getBlock_cached_snd (w : AuthoritativeWorld) (x : ℚ) (y : Int) (z : ℚ)
    (hfound : (assocFind w.chunks
      (floorDiv (jsFloor x) CHUNK_SIZE, floorDiv (jsFloor z) CHUNK_SIZE)).isSome = true) :
    (w.getBlock x y z).2 = w := by
  unfold AuthoritativeWorld.getBlock
  by_cases hy : y < 0 ∨ WORLD_HEIGHT ≤ y
  · rw [if_pos hy]
  · rw [if_neg hy]
    obtain ⟨c, hc⟩ := Option.isSome_iff_exists.mp hfound
    simp only [getChunk_found w _ _ c hc]

/-- The target cell of an air write reads back as air (both when the write
happens and when the cell already was air). -/
theorem server_setBlock_air_blockAt (w : AuthoritativeWorld) (x : ℚ) (y : Int) (z : ℚ) :
    (w.setBlock x y z blockAir).2.blockAt x y z = blockAir := by
  by_cases hb : w.blockAt x y z = blockAir
  · rw [server_setBlock_same w x y z blockAir hb, getBlock_snd_blockAt]
    exact hb
  · have hy := blockAt_in_range w x y z hb
    unfold AuthoritativeWorld.setBlock
    rw [if_neg hy]
    simp only [getChunk_fst]
    have hsame : ¬((w.chunkAt (floorDiv (jsFloor x) CHUNK_SIZE)
        (floorDiv (jsFloor z) CHUNK_SIZE)).get (jsMod (jsFloor x) CHUNK_SIZE) y
        (jsMod (jsFloor z) CHUNK_SIZE) = blockAir) := by
      intro hcontra
      apply hb
      unfold AuthoritativeWorld.blockAt
      rw [if_neg hy]
      exact hcontra
    rw [if_neg hsame]
    unfold AuthoritativeWorld.blockAt
    rw [if_neg hy]
    unfold AuthoritativeWorld.chunkAt
    rw [assocFind_assocSet, if_pos rfl]
    exact get_set_air _ _ y _

/-- A mine request against an air cell of an already-cached chunk is a
complete no-op: no state change and no reply, whether or not the reach check
passes. -/
theorem handleMine_air_noop (world : AuthoritativeWorld) (player : ServerPlayer)
    (changed : List BlockDelta) (now : Int) (x y z : ℚ)
    (hair : world.blockAt ((jsFloor x : Int) : ℚ) (jsFloor y) ((jsFloor z : Int) : ℚ) =
      blockAir)
    (hcached : (assocFind world.chunks (floorDiv (jsFloor ((jsFloor x : Int) : ℚ))
      CHUNK_SIZE, floorDiv (jsFloor ((jsFloor z : Int) : ℚ)) CHUNK_SIZE)).isSome = true) :
    handleMineAction world player changed now x y z = ⟨player, world, changed, []⟩ := by
  unfold handleMineAction
  by_cases hr : withinReach player (jsFloor x) (jsFloor y) (jsFloor z) 6.2 = true
  · rw [if_neg (not_not_intro hr)]
    have hfst : (world.getBlock ((jsFloor x : Int) : ℚ) (jsFloor y)
        ((jsFloor z : Int) : ℚ)).1 = blockAir := by
      rw [getBlock_fst]
      exact hair
    have hsnd := getBlock_cached_snd world ((jsFloor x : Int) : ℚ) (jsFloor y)
      ((jsFloor z : Int) : ℚ) hcached
    simp only [hfst, hsnd, true_or, if_true, reduceIte]
  · rw [if_pos hr]

/-- Claim C7: under the scenario's conditions (block in reach, non-air and
non-water, rate limit satisfied for the first request, second request within
the hardness-derived minimum interval), the first `action_mine` removes the
block and records the delta, while the second identical request changes no
server state — player (timestamps and inventory included), world, delta
buffer — and produces no reply. -/
theorem double_mine_second_noop (world : AuthoritativeWorld) (player : ServerPlayer)
    (changed : List BlockDelta) (now1 now2 : Int) (x y z : ℚ)
    (hreach : withinReach player (jsFloor x) (jsFloor y) (jsFloor z) 6.2 = true)
    (hb0 : world.blockAt ((jsFloor x : Int) : ℚ) (jsFloor y) ((jsFloor z : Int) : ℚ) ≠
      blockAir)
    (hb7 : world.blockAt ((jsFloor x : Int) : ℚ) (jsFloor y) ((jsFloor z : Int) : ℚ) ≠
      blockWater)
    (hrate : ¬(((now1 - player.lastMineAtMs : Int) : ℚ) <
      max 0.2 (blockHardness (world.blockAt ((jsFloor x : Int) : ℚ) (jsFloor y)
        ((jsFloor z : Int) : ℚ))) * 180))
    (_hsecond : ((now2 - now1 : Int) : ℚ) <
      max 0.2 (blockHardness (world.blockAt ((jsFloor x : Int) : ℚ) (jsFloor y)
        ((jsFloor z : Int) : ℚ))) * 180) :
    let r1 := handleMineAction world player changed now1 x y z
    let r2 := handleMineAction r1.world r1.player r1.changedBlocks now2 x y z
    r1.world.blockAt ((jsFloor x : Int) : ℚ) (jsFloor y) ((jsFloor z : Int) : ℚ) =
      blockAir ∧
    r1.changedBlocks = changed ++ [⟨jsFloor x, jsFloor y, jsFloor z, blockAir⟩] ∧
    r2.player = r1.player ∧ r2.world = r1.world ∧
    r2.changedBlocks = r1.changedBlocks ∧ r2.sent = [] := by
  intro r1 r2
  have hy : ¬(jsFloor y < 0 ∨ WORLD_HEIGHT ≤ jsFloor y) :=
    blockAt_in_range world ((jsFloor x : Int) : ℚ) (jsFloor y) ((jsFloor z : Int) : ℚ) hb0
  have hfst : (world.getBlock ((jsFloor x : Int) : ℚ) (jsFloor y)
      ((jsFloor z : Int) : ℚ)).1 =
      world.blockAt ((jsFloor x : Int) : ℚ) (jsFloor y) ((jsFloor z : Int) : ℚ) :=
    getBlock_fst world _ _ _
  have hok : ((world.getBlock ((jsFloor x : Int) : ℚ) (jsFloor y)
      ((jsFloor z : Int) : ℚ)).2.setBlock ((jsFloor x : Int) : ℚ) (jsFloor y)
      ((jsFloor z : Int) : ℚ) blockAir).1 = true := by
    refine server_setBlock_result _ _ _ _ _ hy ?_
    rw [getBlock_snd_blockAt]
    exact hb0
  have hr1 : r1.world = ((world.getBlock ((jsFloor x : Int) : ℚ) (jsFloor y)
        ((jsFloor z : Int) : ℚ)).2.setBlock ((jsFloor x : Int) : ℚ) (jsFloor y)
        ((jsFloor z : Int) : ℚ) blockAir).2 ∧
      r1.changedBlocks = changed ++ [⟨jsFloor x, jsFloor y, jsFloor z, blockAir⟩] := by
    show (handleMineAction world player changed now1 x y z).world = _ ∧
      (handleMineAction world player changed now1 x y z).changedBlocks = _
    unfold handleMineAction
    rw [if_neg (not_not_intro hreach)]
    simp only [hfst]
    rw [if_neg (by rintro (h | h); exacts [hb0 h, hb7 h])]
    rw [if_neg hrate]
    simp only [hok, if_true, reduceIte]
    cases blockIdToDrop (world.blockAt ((jsFloor x : Int) : ℚ) (jsFloor y)
      ((jsFloor z : Int) : ℚ)) <;> exact ⟨rfl, rfl⟩
  have hair2 : r1.world.blockAt ((jsFloor x : Int) : ℚ) (jsFloor y)
      ((jsFloor z : Int) : ℚ) = blockAir := by
    rw [hr1.1]
    exact server_setBlock_air_blockAt _ _ _ _
  have hcache2 : (assocFind r1.world.chunks
      (floorDiv (jsFloor ((jsFloor x : Int) : ℚ)) CHUNK_SIZE,
        floorDiv (jsFloor ((jsFloor z : Int) : ℚ)) CHUNK_SIZE)).isSome = true := by
    rw [hr1.1]
    exact server_setBlock_caches _ _ _ _ _ hy
  have hnoop := handleMine_air_noop r1.world r1.player r1.changedBlocks now2 x y z
    hair2 hcache2
  refine ⟨hair2, hr1.2, ?_, ?_, ?_, ?_⟩ <;> rw [show r2 = _ from hnoop]

/-- An `itemToBlockId` result is a placeable block code, never air or
water. -/
theorem itemToBlockId_not_air_water (it : ItemId) (b : Nat)
    (h : itemToBlockId it = some b) : b ≠ blockAir ∧ b ≠ blockWater := by
  cases it <;>
    simp only [itemToBlockId, Option.some.injEq, blockGrass, blockDirt, blockStone,
      blockWood, blockLeaves, blockSand, reduceCtorEq] at h <;>
    subst h <;> simp [blockAir, blockWater]

/-- A one-chunk store whose single (far away, dirty) chunk exercises the C5
eviction path. -/
def c5Store : WorldStore :=
  ⟨[((5, 5), ⟨ChunkData.mk 5 5 [], true, false, 0⟩)], [], [], []⟩

/-- Claim C8 (amended): an `action_place` whose validation fails sends no
reply, leaves the world's dirty set and every block value unchanged and
consumes no hotbar item; the player is unchanged except that an in-bounds
requested slot index has already been written to `inventory.selectedSlot`
before validation ran (an out-of-bounds request leaves the player fully
unchanged). A failing call is recognised by its unchanged delta buffer. -/
theorem place_validation_failure_silent (world : AuthoritativeWorld)
    (player0 : ServerPlayer) (changed : List BlockDelta) (target normal : Vec3)
    (selectedSlot : Int)
    (hfail : (handlePlaceAction world player0 changed target normal
      selectedSlot).changedBlocks = changed) :
    (handlePlaceAction world player0 changed target normal selectedSlot).sent = [] ∧
    (handlePlaceAction world player0 changed target normal selectedSlot).world.dirty =
      world.dirty ∧
    (∀ (a : ℚ) (b : Int) (c : ℚ),
      (handlePlaceAction world player0 changed target normal selectedSlot).world.blockAt
        a b c = world.blockAt a b c) ∧
    (handlePlaceAction world player0 changed target normal
      selectedSlot).player.inventory.hotbar = player0.inventory.hotbar ∧
    (handlePlaceAction world player0 changed target normal selectedSlot).player =
      { player0 with inventory := { player0.inventory with selectedSlot :=
          if 0 ≤ selectedSlot ∧ selectedSlot < (HOTBAR_SIZE : Int) then selectedSlot
          else player0.inventory.selectedSlot } } := by
  unfold handlePlaceAction at hfail ⊢
  by_cases hb : selectedSlot < 0 ∨ (HOTBAR_SIZE : Int) ≤ selectedSlot
  · rw [if_pos hb]
    exact ⟨rfl, rfl, fun a b c => rfl, rfl, by rw [if_neg (by omega)]⟩
  · rw [if_neg hb] at hfail ⊢
    have hsel : 0 ≤ selectedSlot ∧ selectedSlot < (HOTBAR_SIZE : Int) := by omega
    cases hslot : slotAt player0.inventory.hotbar selectedSlot with
    | none =>
      simp only [hslot]
      exact ⟨True.intro, True.intro, fun _ _ _ => True.intro, True.intro,
        by rw [if_pos hsel]⟩
    | some slot =>
      simp only [hslot] at hfail ⊢
      cases hitem : itemToBlockId slot.item with
      | none =>
        simp only [hitem]
        exact ⟨True.intro, True.intro, fun _ _ _ => True.intro, True.intro,
          by rw [if_pos hsel]⟩
      | some placeBlock =>
        simp only [hitem] at hfail ⊢
        by_cases hpy : jsFloor (target.y + normal.y) < 0 ∨
            WORLD_HEIGHT ≤ jsFloor (target.y + normal.y)
        · rw [if_pos hpy]
          exact ⟨rfl, rfl, fun a b c => rfl, rfl, by rw [if_pos hsel]⟩
        · rw [if_neg hpy] at hfail ⊢
          by_cases hreach : ¬ withinReach { player0 with inventory :=
              { player0.inventory with selectedSlot := selectedSlot } }
              (jsFloor (target.x + normal.x)) (jsFloor (target.y + normal.y))
              (jsFloor (target.z + normal.z)) 6.2 = true
          · rw [if_pos hreach]
            exact ⟨rfl, rfl, fun a b c => rfl, rfl, by rw [if_pos hsel]⟩
          · rw [if_neg hreach] at hfail ⊢
            by_cases hexist : (world.getBlock (jsFloor (target.x + normal.x) : ℚ)
                (jsFloor (target.y + normal.y)) (jsFloor (target.z + normal.z) : ℚ)).1 ≠
                blockAir ∧ (world.getBlock (jsFloor (target.x + normal.x) : ℚ)
                (jsFloor (target.y + normal.y)) (jsFloor (target.z + normal.z) : ℚ)).1 ≠
                blockWater
            · rw [if_pos hexist]
              exact ⟨rfl, getBlock_snd_dirty world _ _ _,
                fun a b c => getBlock_snd_blockAt world _ _ _ a b c, rfl,
                by rw [if_pos hsel]⟩
            · rw [if_neg hexist] at hfail ⊢
              by_cases haabb : aabbIntersectsBlock player0.position
                  ⟨PLAYER_HALF_WIDTH, PLAYER_HEIGHT⟩ (jsFloor (target.x + normal.x))
                  (jsFloor (target.y + normal.y)) (jsFloor (target.z + normal.z)) = true
              · rw [if_pos haabb]
                exact ⟨rfl, getBlock_snd_dirty world _ _ _,
                  fun a b c => getBlock_snd_blockAt world _ _ _ a b c, rfl,
                  by rw [if_pos hsel]⟩
              · rw [if_neg haabb] at hfail ⊢
                cases hcons : consumeSelected
                    { player0.inventory with selectedSlot := selectedSlot } 1 with
                | none =>
                  simp only [hcons]
                  exact ⟨True.intro, getBlock_snd_dirty world _ _ _,
                    fun a b c => getBlock_snd_blockAt world _ _ _ a b c, True.intro,
                    by rw [if_pos hsel]⟩
                | some inv1 =>
                  simp only [hcons] at hfail
                  have hne : (world.getBlock (jsFloor (target.x + normal.x) : ℚ)
                      (jsFloor (target.y + normal.y))
                      (jsFloor (target.z + normal.z) : ℚ)).2.blockAt
                      (jsFloor (target.x + normal.x) : ℚ) (jsFloor (target.y + normal.y))
                      (jsFloor (target.z + normal.z) : ℚ) ≠ placeBlock := by
                    rw [getBlock_snd_blockAt]
                    intro hcontra
                    have hfstq := getBlock_fst world (jsFloor (target.x + normal.x) : ℚ)
                      (jsFloor (target.y + normal.y)) (jsFloor (target.z + normal.z) : ℚ)
                    have hpl := itemToBlockId_not_air_water slot.item placeBlock hitem
                    rcases not_and_or.mp hexist with h | h
                    · rw [not_ne_iff, hfstq, hcontra] at h
                      exact hpl.1 h
                    · rw [not_ne_iff, hfstq, hcontra] at h
                      exact hpl.2 h
                  have how : ((world.getBlock (jsFloor (target.x + normal.x) : ℚ)
                      (jsFloor (target.y + normal.y))
                      (jsFloor (target.z + normal.z) : ℚ)).2.setBlock
                      (jsFloor (target.x + normal.x) : ℚ) (jsFloor (target.y + normal.y))
                      (jsFloor (target.z + normal.z) : ℚ) placeBlock).1 = true :=
                    server_setBlock_result _ _ _ _ _ hpy hne
                  rw [if_pos how] at hfail
                  have hlen := congrArg List.length hfail
                  simp only [List.length_append, List.length_cons, List.length_nil]
                    at hlen
                  omega

/-- World and player for the C8 counterexample and witness: an empty cached
map, empty storage, the player at `(0.5, 30, 0.5)` holding the starter
inventory with slot 0 selected. -/
def c8World : AuthoritativeWorld := ⟨[], [], fun _ => none, mkWorldGenerator 1⟩

def c8Player : ServerPlayer :=
  ⟨"p", "p", ⟨1/2, 30, 1/2⟩, ⟨0, 0, 0⟩, 0, 0, 20, true, createStarterInventory, [],
    ⟨0, 0, 0, 0, false, false, 0, 0⟩, 0, 0, 0⟩

/-- World and player for the C7 witness: one cached chunk at `(0, 0)` whose
cell `(0, 0, 0)` holds stone, the player close enough to reach it. -/
def c7World : AuthoritativeWorld :=
  ⟨[((0, 0), ChunkData.mk 0 0 [3])], [], fun _ => none, mkWorldGenerator 1⟩

def c7Player : ServerPlayer :=
  ⟨"p", "p", ⟨1/2, 0, 1/2⟩, ⟨0, 0, 0⟩, 0, 0, 20, true, createStarterInventory, [],
    ⟨0, 0, 0, 0, false, false, 0, 0⟩, 0, 0, 0⟩

/-- Client state and authoritative snapshot for the C6 witness: three buffered
inputs with sequence numbers 4, 5, 6 and a snapshot acknowledging 5. -/
def c6Client : ClientLocalState :=
  ⟨⟨0, 10, 0⟩, ⟨1, 1, 1⟩, 20, 0, 0, inventoryNew [],
    [⟨4, 1/60, 0, 0, false, false, 0, 0⟩, ⟨5, 1/60, 1, 0, false, false, 0, 0⟩,
      ⟨6, 1/60, 0, 1, false, false, 0, 0⟩]⟩

def c6State : NetPlayerState :=
  ⟨"p", "p", 0, 10, 0, 0, -1, 0, 1, 1/2, 19, 2, [some ⟨ItemId.stone, 5⟩], some 5⟩

section WitnessEval

set_option allowUnsafeReducibility true
attribute [local semireducible] Rat.mul Rat.add Rat.sub Rat.inv Rat.ofScientific

/-- Witness for C4: the invariant evaluated in the initial store, with the
freshness facts instantiated for a `queueChunksAround(0, 0, 0)` call. -/
theorem scheduler_bounded_and_fresh_witness :
    WorldStore.initial.loadingKeys.length ≤ maxConcurrentLoads ∧
      (WorldStore.initial.queueChunksAround 0 0 0).loadQueue =
        WorldStore.initial.loadQueue ++ WorldStore.initial.newlyQueuedKeys 0 0 0 ∧
      (WorldStore.initial.newlyQueuedKeys 0 0 0).Nodup ∧
      ¬((assocFind WorldStore.initial.chunks ((0, 0) : Key)).isSome ∨
        ((0, 0) : Key) ∈ WorldStore.initial.loadQueue ∨
        ((0, 0) : Key) ∈ WorldStore.initial.queuedKeys ∨
        ((0, 0) : Key) ∈ WorldStore.initial.loadingKeys) := by
  have h := scheduler_bounded_and_fresh WorldStore.initial Reachable.init
  exact ⟨h.1, h.2.1 0 0 0, h.2.2.1 0 0 0, h.2.2.2 0 0 0 (0, 0) (by decide)⟩

/-- Witness for C5: the far dirty chunk of `c5Store` is saved when evicted. -/
theorem unloadFarChunks_saves_dirty_witness :
    ((5, 5) : Key) ∈ (c5Store.unloadFarChunks 0 0 1).2 :=
  unloadFarChunks_saves_dirty c5Store 0 0 1 (5, 5) ⟨ChunkData.mk 5 5 [], true, false, 0⟩
    (by decide) (by decide) (by decide)

/-- Witness for C6 at a concrete client state and snapshot (ack = 5). -/
theorem reconciliation_overwrites_and_discards_witness :
    (applyLocalReconciliation c6Client c6State).velocity =
      ⟨c6State.vx, c6State.vy, c6State.vz⟩ ∧
    (applyLocalReconciliation c6Client c6State).health = c6State.health ∧
    (applyLocalReconciliation c6Client c6State).yaw = c6State.yaw ∧
    (applyLocalReconciliation c6Client c6State).pitch = c6State.pitch ∧
    (∀ i : Nat, i < HOTBAR_SIZE →
      (applyLocalReconciliation c6Client c6State).inventory.hotbar.getD i none =
        c6State.hotbar.getD i none) ∧
    (applyLocalReconciliation c6Client c6State).inventory.selectedSlot =
      c6State.selectedSlot % (HOTBAR_SIZE : Int) ∧
    (applyLocalReconciliation c6Client c6State).pendingInputs =
      c6Client.pendingInputs.filter (fun p => 5 < p.seq) :=
  reconciliation_overwrites_and_discards c6Client c6State 5 rfl (by decide)

/-- Witness for C7: mining the stone cell of `c7World` twice in quick
succession; the second call is a no-op with no reply. -/
theorem double_mine_second_noop_witness :
    (handleMineAction c7World c7Player [] 1000 0 0 0).world.blockAt
      ((jsFloor (0 : ℚ) : Int) : ℚ) (jsFloor (0 : ℚ)) ((jsFloor (0 : ℚ) : Int) : ℚ) =
      blockAir ∧
    (handleMineAction c7World c7Player [] 1000 0 0 0).changedBlocks =
      [] ++ [⟨jsFloor (0 : ℚ), jsFloor (0 : ℚ), jsFloor (0 : ℚ), blockAir⟩] ∧
    (handleMineAction (handleMineAction c7World c7Player [] 1000 0 0 0).world
        (handleMineAction c7World c7Player [] 1000 0 0 0).player
        (handleMineAction c7World c7Player [] 1000 0 0 0).changedBlocks 1001 0 0 0).player =
      (handleMineAction c7World c7Player [] 1000 0 0 0).player ∧
    (handleMineAction (handleMineAction c7World c7Player [] 1000 0 0 0).world
        (handleMineAction c7World c7Player [] 1000 0 0 0).player
        (handleMineAction c7World c7Player [] 1000 0 0 0).changedBlocks 1001 0 0 0).world =
      (handleMineAction c7World c7Player [] 1000 0 0 0).world ∧
    (handleMineAction (handleMineAction c7World c7Player [] 1000 0 0 0).world
        (handleMineAction c7World c7Player [] 1000 0 0 0).player
        (handleMineAction c7World c7Player [] 1000 0 0 0).changedBlocks 1001 0 0
        0).changedBlocks =
      (handleMineAction c7World c7Player [] 1000 0 0 0).changedBlocks ∧
    (handleMineAction (handleMineAction c7World c7Player [] 1000 0 0 0).world
        (handleMineAction c7World c7Player [] 1000 0 0 0).player
        (handleMineAction c7World c7Player [] 1000 0 0 0).changedBlocks 1001 0 0 0).sent =
      [] :=
  double_mine_second_noop c7World c7Player [] 1000 1001 0 0 0 (by decide) (by decide)
    (by decide) (by decide) (by decide)

/-- Claim C8 counterexample: an `action_place` aimed at the far-away cell
`(100, 50, 100)` (out of reach, so validation fails) with requested slot 1
sends no reply, changes no block and no hotbar item — but the player's
selected slot, 0 beforehand, is 1 afterwards: the failing action did mutate
player state. -/
theorem place_failure_mutates_selected_slot :
    (handlePlaceAction c8World c8Player [] ⟨100, 50, 100⟩ ⟨0, 1, 0⟩ 1).sent = [] ∧
    (handlePlaceAction c8World c8Player [] ⟨100, 50, 100⟩ ⟨0, 1, 0⟩ 1).changedBlocks =
      [] ∧
    (handlePlaceAction c8World c8Player []
      ⟨100, 50, 100⟩ ⟨0, 1, 0⟩ 1).player.inventory.hotbar = c8Player.inventory.hotbar ∧
    c8Player.inventory.selectedSlot = 0 ∧
    (handlePlaceAction c8World c8Player []
      ⟨100, 50, 100⟩ ⟨0, 1, 0⟩ 1).player.inventory.selectedSlot = 1 := by
  decide

/-- Witness for the amended C8 theorem at the counterexample's inputs. -/
theorem place_validation_failure_silent_witness :
    (handlePlaceAction c8World c8Player [] ⟨100, 50, 100⟩ ⟨0, 1, 0⟩ 1).sent = [] ∧
    (handlePlaceAction c8World c8Player [] ⟨100, 50, 100⟩ ⟨0, 1, 0⟩ 1).world.dirty =
      c8World.dirty ∧
    (∀ (a : ℚ) (b : Int) (c : ℚ),
      (handlePlaceAction c8World c8Player [] ⟨100, 50, 100⟩ ⟨0, 1, 0⟩ 1).world.blockAt
        a b c = c8World.blockAt a b c) ∧
    (handlePlaceAction c8World c8Player []
      ⟨100, 50, 100⟩ ⟨0, 1, 0⟩ 1).player.inventory.hotbar = c8Player.inventory.hotbar ∧
    (handlePlaceAction c8World c8Player [] ⟨100, 50, 100⟩ ⟨0, 1, 0⟩ 1).player =
      { c8Player with inventory := { c8Player.inventory with selectedSlot :=
          if 0 ≤ (1 : Int) ∧ (1 : Int) < (HOTBAR_SIZE : Int) then 1
          else c8Player.inventory.selectedSlot } } :=
  place_validation_failure_silent c8World c8Player [] ⟨100, 50, 100⟩ ⟨0, 1, 0⟩ 1
    (by decide)

end WitnessEval

end MC
